import Mathlib

/-!
Verification of the node scoring, penalty, and selection engine of
`core/proxy_pool.py` (class `ProxyPool` and the module-level helper
`classify_failure`).

The embedding mirrors the Python source:

* the penalty ledger `ProxyPool._dyn_penalty : Dict[str, float]` is an
  association list `List (String × α)` with dictionary semantics
  (`lookupD` is `dict.get(name, 0.0)`, `updateKV` is item assignment,
  `setdefaultKV` is `dict.setdefault`);
* scores live in an arbitrary linear ordered commutative ring `α`.  The
  engine itself only adds, subtracts and compares scores, so it is stated
  generically over `α` and over the static base-score table
  `base : String → α` (the embedding of `ProxyPool._base_score`); the real
  base-score function `base_score : String → ℝ` (logistic model over the
  fixed weight tables) is defined below in the real-valued section and is
  the intended instantiation.  Witness evaluations instantiate `α := ℤ`;
* network interactions (`GET /proxies`, the preflight probes, the
  monotonic clock) are oracle inputs (`GroupResp`, `ProbeOutcome`,
  `LoopEnv`), one per controller call, exactly at the call sites of the
  source;
* the unbounded `while True` loop of `ensure_proxy_reachable` is embedded
  with explicit fuel; running out of fuel is reported as a distinguished
  outcome that no claim counts as a normal return.
-/

section Defs

variable {α : Type} [LinearOrderedCommRing α]

/-- Dictionary read, embedding key lookups on `_dyn_penalty`
(first binding of the key wins; our states never hold duplicate keys). -/
def lookupKV : List (String × α) → String → Option α
  | [], _ => none
  | p :: t, k => if k = p.1 then some p.2 else lookupKV t k

/-- Dictionary read with default `0`, embedding `self._dyn_penalty.get(name, 0.0)`. -/
def lookupD (m : List (String × α)) (k : String) : α :=
  (lookupKV m k).getD 0

/-- Dictionary item assignment `d[k] = v`: replace the value at an existing key in
place, otherwise append the new binding (Python dicts keep insertion order). -/
def updateKV : List (String × α) → String → α → List (String × α)
  | [], k, v => [(k, v)]
  | p :: t, k, v => if p.1 = k then (k, v) :: t else p :: updateKV t k v

/-- Embedding of `d.setdefault(k, 0.0)`: insert `0` only when the key is absent. -/
def setdefaultKV (m : List (String × α)) (k : String) : List (String × α) :=
  if (lookupKV m k).isSome then m else m ++ [(k, 0)]

/-- Mutable scoring state of `ProxyPool`: the dynamic-penalty ledger
`_dyn_penalty` and the idle timer `_last_switch_ts`. -/
structure PoolState (α : Type) where
  dynPenalty : List (String × α)
  lastSwitchTs : α
deriving DecidableEq

/-- Constant `SCORE_THRESHOLD = 10.0`. -/
def SCORE_THRESHOLD : α := 10

/-- Constant `REFRESH_IDLE_SECONDS = 21600` (six hours). -/
def REFRESH_IDLE_SECONDS : α := 21600

/-- Penalty magnitude table of `ProxyPool._apply_penalty`: `preflight=100`,
`risk=60`, `proxy=30`, `mail=5`, anything else falls back to the risk value. -/
def penaltyOf (kind : String) : α :=
  if kind = "preflight" then 100
  else if kind = "risk" then 60
  else if kind = "proxy" then 30
  else if kind = "mail" then 5
  else 60

/-- Embedding of `ProxyPool._score`: static base score minus the accumulated
dynamic penalty (missing ledger entries read as `0`). -/
def score (base : String → α) (st : PoolState α) (name : String) : α :=
  base name - lookupD st.dynPenalty name

/-- Embedding of `ProxyPool._apply_penalty`: add the fixed magnitude for
`kind` to the node's ledger entry. -/
def apply_penalty (st : PoolState α) (name : String) (kind : String) : PoolState α :=
  { st with
    dynPenalty := updateKV st.dynPenalty name (lookupD st.dynPenalty name + penaltyOf kind) }

/-- Embedding of `ProxyPool._maybe_refresh_dynamic`, with the value of
`time.monotonic()` passed in as `tNow`: if the idle time since the last switch
reaches `REFRESH_IDLE_SECONDS` and some entry is positive, zero the whole
ledger and restart the timer; if no entry is positive, only restart the timer. -/
def maybe_refresh_dynamic (st : PoolState α) (tNow : α) : PoolState α :=
  if tNow - st.lastSwitchTs < REFRESH_IDLE_SECONDS then st
  else if ¬ ∃ p ∈ st.dynPenalty, 0 < p.2 then { st with lastSwitchTs := tNow }
  else { dynPenalty := st.dynPenalty.map (fun p => (p.1, 0)), lastSwitchTs := tNow }

/-- Character table for ASCII lowercasing, modelling `str.lower()`: the
classifier's markers are ASCII, and `str.lower()` maps `A`-`Z` to `a`-`z` and
leaves every other character of the inputs of interest unchanged. -/
def lowerChar (c : Char) : Char :=
  if c = 'A' then 'a' else if c = 'B' then 'b' else if c = 'C' then 'c'
  else if c = 'D' then 'd' else if c = 'E' then 'e' else if c = 'F' then 'f'
  else if c = 'G' then 'g' else if c = 'H' then 'h' else if c = 'I' then 'i'
  else if c = 'J' then 'j' else if c = 'K' then 'k' else if c = 'L' then 'l'
  else if c = 'M' then 'm' else if c = 'N' then 'n' else if c = 'O' then 'o'
  else if c = 'P' then 'p' else if c = 'Q' then 'q' else if c = 'R' then 'r'
  else if c = 'S' then 's' else if c = 'T' then 't' else if c = 'U' then 'u'
  else if c = 'V' then 'v' else if c = 'W' then 'w' else if c = 'X' then 'x'
  else if c = 'Y' then 'y' else if c = 'Z' then 'z' else c

/-- Uppercase ASCII letters. -/
def upperLetters : List Char :=
  ['A', 'B', 'C', 'D', 'E', 'F', 'G', 'H', 'I', 'J', 'K', 'L', 'M',
   'N', 'O', 'P', 'Q', 'R', 'S', 'T', 'U', 'V', 'W', 'X', 'Y', 'Z']

/-- Lowercase ASCII letters. -/
def lowerLetters : List Char :=
  ['a', 'b', 'c', 'd', 'e', 'f', 'g', 'h', 'i', 'j', 'k', 'l', 'm',
   'n', 'o', 'p', 'q', 'r', 's', 't', 'u', 'v', 'w', 'x', 'y', 'z']

/-- Whitespace characters stripped by `str.strip()` (the ASCII set). -/
def wsChar (c : Char) : Bool :=
  c = ' ' || c = '\t' || c = '\n' || c = '\x0d' || c = '\x0b' || c = '\x0c'

/-- Strip of leading and trailing whitespace, embedding `str.strip()`. -/
def stripL (l : List Char) : List Char :=
  ((l.dropWhile wsChar).reverse.dropWhile wsChar).reverse

/-- Bool-valued list head-matching test (character-exact). -/
def isPrefixB : List Char → List Char → Bool
  | [], _ => true
  | _ :: _, [] => false
  | a :: as, b :: bs => a == b && isPrefixB as bs

/-- Bool-valued substring test on character lists, embedding Python's
`needle in haystack` for strings. -/
def isSubB : List Char → List Char → Bool
  | pat, [] => isPrefixB pat []
  | pat, b :: bs => isPrefixB pat (b :: bs) || isSubB pat bs

/-- Characters that are neither uppercase nor lowercase ASCII letters are both
fixed by lowercasing and reached only from themselves. -/
def rigidChar (p : Char) : Prop := p ∉ upperLetters ∧ p ∉ lowerLetters

instance (p : Char) : Decidable (rigidChar p) := by
  unfold rigidChar
  infer_instance

/-- Risk/anti-bot markers of `classify_failure`, in source order. -/
def risk_markers : List String :=
  ["signin-error",
   "let's try something else",
   "we had trouble retrieving the email address",
   "recaptcha challenge",
   "send code button not found",
   "code input not found",
   "verification code submission failed",
   "url parameters not found",
   "cid not found"]

/-- Proxy/network-error markers of `classify_failure`, in source order. -/
def proxy_markers : List String :=
  ["err_proxy_connection_failed",
   "err_tunnel_connection_failed",
   "proxyerror",
   "cannot connect to proxy",
   "connection refused",
   "connect timeout",
   "read timed out",
   "timed out",
   "ssl",
   "net::err_"]

/-- Core of `classify_failure` on the stripped character list `raw` (the local
`low` of the source, the lowercased copy of `raw`, is written inline as
`raw.map lowerChar`): test in order the empty case, the mail markers, the risk
markers and the proxy markers, returning the matched marker as the detail. -/
def classifyCore (raw : List Char) : String × String :=
  if raw = [] then ("other", "empty")
  else if isSubB "verification code timeout".data (raw.map lowerChar)
      || isSubB "验证码超时".data raw
      || isSubB "otp_timeout".data (raw.map lowerChar) then ("mail", "otp_timeout")
  else
    match risk_markers.find? (fun m => isSubB m.data (raw.map lowerChar)) with
    | some m => ("risk", m)
    | none =>
      match proxy_markers.find? (fun m => isSubB m.data (raw.map lowerChar)) with
      | some m => ("proxy", m)
      | none => ("other", "unknown")

/-- Embedding of the module-level `classify_failure`: strip the input and
dispatch on the marker groups. -/
def classify_failure (error : String) : String × String :=
  classifyCore (stripL error.data)

/-- Constant `PREFLIGHT_URLS`, the fixed ordered probe-target list. -/
def PREFLIGHT_URLS : List String :=
  ["https://www.gstatic.com/generate_204",
   "https://auth.business.gemini.google/login?continueUrl=https://business.gemini.google/"]

/-- Outcome of one `requests.get` issued by `ProxyPool._probe_once`: either an
HTTP response with its status code, or a raised exception with its type name
and message. -/
inductive ProbeOutcome where
  | status (code : ℕ)
  | exc (typeName msg : String)
deriving DecidableEq

/-- Embedding of `ProxyPool._probe_once`: classify the probe outcome for one
URL, treating 407 as a hard failure and any status in `[200, 400)` as success;
exceptions fail with the formatted detail. -/
def probe_once (url : String) (o : ProbeOutcome) : Bool × String :=
  match o with
  | ProbeOutcome.status code =>
      if code = 407 then (false, url ++ ": proxy auth required (407)")
      else if 200 ≤ code ∧ code < 400 then (true, url ++ ": " ++ toString code)
      else (false, url ++ ": " ++ toString code)
  | ProbeOutcome.exc typeName msg => (false, url ++ ": " ++ typeName ++ ": " ++ msg)

/-- Loop of `ProxyPool._preflight` over a URL list: accumulate each probe's
detail and stop at the first failure.  The third component instruments which
URLs were actually probed (in order), which the source's `for` loop determines
implicitly by breaking out. -/
def preflightAux (out : String → ProbeOutcome) : List String → Bool × List String × List String
  | [] => (true, [], [])
  | u :: rest =>
    let pr := probe_once u (out u)
    if pr.1 then
      let r := preflightAux out rest
      (r.1, pr.2 :: r.2.1, u :: r.2.2)
    else (false, [pr.2], [u])

/-- Embedding of `ProxyPool._preflight`: probe `PREFLIGHT_URLS` in order
through the active proxy; `(ok, details, probed-urls)`. -/
def preflight (out : String → ProbeOutcome) : Bool × List String × List String :=
  preflightAux out PREFLIGHT_URLS


/-- Strip of trailing whitespace only, embedding `str.rstrip()`. -/
def rstripL (l : List Char) : List Char :=
  (l.reverse.dropWhile wsChar).reverse

/-- Code-point comparison of character lists, embedding Python string `<`. -/
def strLtB : List Char → List Char → Bool
  | [], [] => false
  | [], _ :: _ => true
  | _ :: _, [] => false
  | a :: as, b :: bs =>
    if a.toNat < b.toNat then true
    else if b.toNat < a.toNat then false
    else strLtB as bs

/-- Code-point comparison of strings, embedding Python string `<`. -/
def strLt (a b : String) : Bool := strLtB a.data b.data

/-- Read of the `name` field of a fetched node configuration, embedding
`str(cfg.get("name") or "")` (a missing field reads as the empty string). -/
def getName (p : List (String × String)) : String :=
  match lookupKV p "name" with
  | some v => v
  | none => ""

/-- Ordered insert for the deterministic key sort of the fingerprint. -/
def insertByKey (x : String × String) : List (String × String) → List (String × String)
  | [] => [x]
  | y :: ys => if strLt x.1 y.1 then x :: y :: ys else y :: insertByKey x ys

/-- Key sort of a configuration, modelling `json.dumps(cfg, sort_keys=True)`:
two configurations serialize equally exactly when their key-sorted item lists
are equal (keys are unique, values are opaque strings). -/
def sortByKey (l : List (String × String)) : List (String × String) :=
  l.foldr insertByKey []

/-- Configuration fingerprint of `fetch_provider`: the entry's items without
the `name` field, serialized deterministically (modelled by the key sort). -/
def fingerprintOf (p : List (String × String)) : List (String × String) :=
  sortByKey (p.filter (fun kv => decide (kv.1 ≠ "name")))

/-- Accumulator of the dedup loop of `ProxyPool.fetch_provider`: fingerprints
seen so far (`seen_fp`), display-name use counters (`name_seen`) and the
output list (`out`). -/
structure DedupState where
  seenFp : List (List (String × String))
  nameSeen : List (String × ℕ)
  out : List (List (String × String))
deriving DecidableEq

/-- One iteration of the dedup loop of `ProxyPool.fetch_provider` on a merged
entry `p`: skip nameless entries, drop fingerprint duplicates entirely,
otherwise register the display name, suffixing `__dup<n>` when the name was
already used, and append the entry with that name. -/
def fetch_dedup_step (st : DedupState) (p : List (String × String)) : DedupState :=
  let name := String.mk (rstripL (getName p).data)
  if name = "" then st
  else if fingerprintOf p ∈ st.seenFp then st
  else
    match lookupKV st.nameSeen name with
    | some c =>
        { seenFp := fingerprintOf p :: st.seenFp,
          nameSeen := updateKV st.nameSeen name (c + 1),
          out := st.out ++ [updateKV p "name" (name ++ "__dup" ++ toString (c + 1))] }
    | none =>
        { seenFp := fingerprintOf p :: st.seenFp,
          nameSeen := updateKV st.nameSeen name 0,
          out := st.out ++ [updateKV p "name" name] }

/-- Dedup part of `ProxyPool.fetch_provider`: fold the merged fetch result
into the deduplicated output list that is persisted under the `proxies` key. -/
def fetch_provider_dedup (merged : List (List (String × String))) : List (List (String × String)) :=
  (merged.foldl fetch_dedup_step ⟨[], [], []⟩).out

/-- Display names of the persisted provider output, in order. -/
def output_names (merged : List (List (String × String))) : List String :=
  (fetch_provider_dedup merged).map getName


/-- Parsed response of `GET /proxies` as consumed by `ProxyPool._get_group`:
the group's current selection `now`, its member list `all`, and the per-node
`alive` flag (`none` when missing or unknown). -/
structure GroupResp where
  now : Option String
  allList : List String
  alive : String → Option Bool

/-- Candidate list of `_get_group`: the group members without the
`DIRECT`/`REJECT` sentinels. -/
def candidatesOf (g : GroupResp) : List String :=
  g.allList.filter (fun n => decide (n ≠ "DIRECT") && decide (n ≠ "REJECT"))

/-- Usable candidates of `ensure_proxy_reachable`: drop nodes that the health
checker explicitly marks dead (`alive is not False` keeps `true` and unknown). -/
def usableOf (g : GroupResp) : List String :=
  (candidatesOf g).filter (fun n => decide (g.alive n ≠ some false))

/-- Candidate list actually ranked: the usable ones, falling back to the full
candidate list when every node is marked dead (cold-start path). -/
def selectableOf (g : GroupResp) : List String :=
  if usableOf g = [] then candidatesOf g else usableOf g

/-- Embedding of the local `_alive_rank`: alive nodes rank 2, anything else 1. -/
def alive_rank (v : Option Bool) : ℕ :=
  if v = some true then 2 else 1

/-- Strict lexicographic order on the sort key `(liveness_rank, score, name)`
used by the best pick (`max(..., key=...)` on Python tuples; the name component
compares by code points, as Python string comparison does). -/
def keyLt (x y : ℕ × α × String) : Prop :=
  x.1 < y.1 ∨ (x.1 = y.1 ∧ (x.2.1 < y.2.1 ∨ (x.2.1 = y.2.1 ∧ strLt x.2.2 y.2.2 = true)))

instance (x y : ℕ × α × String) : Decidable (keyLt x y) := by
  unfold keyLt
  infer_instance

/-- Embedding of Python `max(h :: t, key=key)`: fold keeping the current
maximum, replacing it only on a strictly greater key (so the first maximal
element wins). -/
def bestOf (key : String → ℕ × α × String) (h : String) (t : List String) : String :=
  t.foldl (fun acc n => if keyLt (key acc) (key n) then n else acc) h

/-- Sort key of one candidate in the best pick of `ensure_proxy_reachable`. -/
def keyOf (g : GroupResp) (sc : String → α) (n : String) : ℕ × α × String :=
  (alive_rank (g.alive n), sc n, n)

/-- Observable events of the selection loop: `selected` is the external
`PUT /proxies/<group>` switch call (with the best score that was logged for
it), `penalized` an `_apply_penalty` call. -/
inductive PoolEv (α : Type) where
  | selected (name : String) (bestScore : α)
  | penalized (name : String) (kind : String)
deriving DecidableEq

/-- Result of the selection loop: a normal return with the then-active node, a
`no proxy candidates` error, a `proxy pool exhausted` error carrying the best
candidate and its score, or exhaustion of the modelling fuel. -/
inductive LoopOutcome (α : Type) where
  | ok (active : Option String)
  | errNoCandidates
  | errExhausted (best : String) (bestScore : α)
  | fuelOut
deriving DecidableEq

/-- External oracle of one `ensure_proxy_reachable` call: for each iteration
`k` of the `while` loop, the `GET /proxies` response, the probe outcomes of the
sticky preflight and of the post-pick preflight, and the monotonic-clock value
recorded on a switch. -/
structure LoopEnv (α : Type) where
  resp : ℕ → GroupResp
  pf1 : ℕ → String → ProbeOutcome
  pf2 : ℕ → String → ProbeOutcome
  switchTime : ℕ → α

/-- Best-pick phase of one loop iteration (source lines from the `best =`
assignment to the end of the iteration): rank the candidates, fail with
exhaustion below the threshold, otherwise switch when the best differs from
`now`, run the preflight and either return or penalize the active node and
continue.  Returns `Sum.inl` on a loop exit, `Sum.inr` with the next state on
a continue.  The `[]` candidate case is unreachable (callers pass a list that
is nonempty whenever the iteration reaches this phase). -/
def pickPhase (env : LoopEnv α) (base : String → α) (k : ℕ) (g : GroupResp)
    (cands : List String) (st2 : PoolState α) (evs : List (PoolEv α)) :
    (LoopOutcome α × PoolState α × List (PoolEv α)) ⊕ (PoolState α × List (PoolEv α)) :=
  match cands with
  | [] => Sum.inl (LoopOutcome.errNoCandidates, st2, evs)
  | h :: t =>
    let best := bestOf (keyOf g (score base st2)) h t
    let bs := score base st2 best
    if bs < SCORE_THRESHOLD then Sum.inl (LoopOutcome.errExhausted best bs, st2, evs)
    else if g.now = some best then
      if (preflight (env.pf2 k)).1 then Sum.inl (LoopOutcome.ok (some best), st2, evs)
      else if best = "" then Sum.inr (st2, evs)
      else Sum.inr (apply_penalty st2 best "preflight", evs ++ [PoolEv.penalized best "preflight"])
    else
      if (preflight (env.pf2 k)).1 then
        Sum.inl (LoopOutcome.ok (some best),
          { st2 with lastSwitchTs := env.switchTime k }, evs ++ [PoolEv.selected best bs])
      else if best = "" then
        Sum.inr ({ st2 with lastSwitchTs := env.switchTime k }, evs ++ [PoolEv.selected best bs])
      else
        Sum.inr (apply_penalty { st2 with lastSwitchTs := env.switchTime k } best "preflight",
          evs ++ [PoolEv.selected best bs, PoolEv.penalized best "preflight"])

/-- Ledger state after the `setdefault` pass of one loop iteration
(`for n in candidates: self._dyn_penalty.setdefault(n, 0.0)`). -/
def stepSt1 (env : LoopEnv α) (k : ℕ) (st : PoolState α) : PoolState α :=
  { st with
    dynPenalty := (candidatesOf (env.resp k)).foldl (fun m n => setdefaultKV m n) st.dynPenalty }

/-- One iteration of the `while True` loop of `ensure_proxy_reachable`: read
the group, fail fast on an empty candidate list, create missing ledger
entries (`stepSt1`), restrict to usable candidates, run the sticky check on
the current node, then enter the best-pick phase. -/
def loopStep (env : LoopEnv α) (base : String → α) (k : ℕ) (st : PoolState α) :
    (LoopOutcome α × PoolState α × List (PoolEv α)) ⊕ (PoolState α × List (PoolEv α)) :=
  let g := env.resp k
  if candidatesOf g = [] then Sum.inl (LoopOutcome.errNoCandidates, st, [])
  else
    let st1 := stepSt1 env k st
    let cands := selectableOf g
    match g.now with
    | some nw =>
      if nw ≠ "" ∧ nw ∈ cands ∧ SCORE_THRESHOLD ≤ score base st1 nw then
        if (preflight (env.pf1 k)).1 then Sum.inl (LoopOutcome.ok (some nw), st1, [])
        else pickPhase env base k g cands (apply_penalty st1 nw "preflight")
          [PoolEv.penalized nw "preflight"]
      else pickPhase env base k g cands st1 []
    | none => pickPhase env base k g cands st1 []

/-- The `while True` loop of `ensure_proxy_reachable`, with explicit fuel and
the iteration counter `k` indexing the oracle. -/
def ensureLoop (env : LoopEnv α) (base : String → α) :
    ℕ → ℕ → PoolState α → LoopOutcome α × PoolState α × List (PoolEv α)
  | 0, _, st => (LoopOutcome.fuelOut, st, [])
  | fuel + 1, k, st =>
    match loopStep env base k st with
    | Sum.inl done => done
    | Sum.inr c =>
      let r := ensureLoop env base fuel (k + 1) c.1
      (r.1, r.2.1, c.2 ++ r.2.2)

/-- State carried out of one loop iteration, for both exits and continues. -/
def stepStateOf :
    (LoopOutcome α × PoolState α × List (PoolEv α)) ⊕ (PoolState α × List (PoolEv α)) →
      PoolState α
  | Sum.inl d => d.2.1
  | Sum.inr c => c.1

/-- Events emitted by one loop iteration, for both exits and continues. -/
def stepEventsOf :
    (LoopOutcome α × PoolState α × List (PoolEv α)) ⊕ (PoolState α × List (PoolEv α)) →
      List (PoolEv α)
  | Sum.inl d => d.2.2
  | Sum.inr c => c.2

/-- Embedding of `ProxyPool.ensure_proxy_reachable` with the pool enabled and
started: refresh the dynamic scores once under the lock, then run the
selection loop. -/
def ensure_proxy_reachable (env : LoopEnv α) (base : String → α) (tNow : α)
    (st : PoolState α) (fuel : ℕ) : LoopOutcome α × PoolState α × List (PoolEv α) :=
  ensureLoop env base fuel 0 (maybe_refresh_dynamic st tNow)

/-- Truthiness of the current selection (`if not now:`): `None` and the empty
string are falsy. -/
def optTruthy : Option String → Bool
  | none => false
  | some s => decide (s ≠ "")

/-- Embedding of `ProxyPool.on_failure` with the pool enabled and started:
read the group (`g0` is that `GET /proxies` response), penalize the currently
selected node when one exists, then re-run `ensure_proxy_reachable`; with no
selection, no penalty is applied and the call goes straight to
`ensure_proxy_reachable`. -/
def on_failure (g0 : GroupResp) (env : LoopEnv α) (base : String → α) (tNow : α)
    (st : PoolState α) (kind _detail : String) (fuel : ℕ) :
    LoopOutcome α × PoolState α × List (PoolEv α) :=
  match g0.now with
  | none => ensure_proxy_reachable env base tNow st fuel
  | some nw =>
    if nw = "" then ensure_proxy_reachable env base tNow st fuel
    else ensure_proxy_reachable env base tNow (apply_penalty st nw kind) fuel

/-- Constant base-score table used to evaluate the loop on concrete inputs. -/
def base50 : String → ℤ := fun _ => 50

/-- Empty initial scoring state used by the concrete evaluations. -/
def stZero : PoolState ℤ := ⟨[], 0⟩

/-- Concrete group of one alive candidate, no current selection. -/
def respW : GroupResp := ⟨none, ["n1"], fun _ => some true⟩

/-- Concrete oracle: the group `respW` at every iteration, all probes 204. -/
def envW : LoopEnv ℤ :=
  ⟨fun _ => respW, fun _ _ => ProbeOutcome.status 204, fun _ _ => ProbeOutcome.status 204,
    fun _ => 100⟩

/-- Concrete group of two alive candidates `a`, `b`, no current selection. -/
def respC3 : GroupResp := ⟨none, ["a", "b"], fun _ => some true⟩

/-- Concrete oracle for the tie-break run: group `respC3`, all probes 204. -/
def envC3 : LoopEnv ℤ :=
  ⟨fun _ => respC3, fun _ _ => ProbeOutcome.status 204, fun _ _ => ProbeOutcome.status 204,
    fun _ => 100⟩


/-- Concrete group with current selection `n1`, one alive candidate. -/
def respW9 : GroupResp := ⟨some "n1", ["n1"], fun _ => some true⟩

/-- Concrete oracle with sticky current node `n1` and passing probes. -/
def envW9 : LoopEnv ℤ :=
  ⟨fun _ => respW9, fun _ _ => ProbeOutcome.status 204, fun _ _ => ProbeOutcome.status 204,
    fun _ => 100⟩


/-- Split of a character list at every occurrence of the separator character,
embedding Python `str.split(sep)` for the single-character separators used by
`_parse_name` (empty segments are kept). -/
def splitOnC (c : Char) : List Char → List (List Char)
  | [] => [[]]
  | x :: xs =>
    match splitOnC c xs with
    | [] => [[]]
    | g :: gs => if x = c then [] :: g :: gs else (x :: g) :: gs

/-- Constant `BASE_BIAS` of the fitted logistic model. -/
def BASE_BIAS : ℝ := -1.711

/-- Weight table `KIND_W` (`dict.get` with default `0`). -/
def KIND_W : String → ℝ := fun k =>
  if k = "speednode" then 1.874
  else if k = "tagged" then 1.102
  else if k = "other" then -2.281
  else if k = "garbage" then -2.406
  else 0

/-- Weight table `LINE_W` (`dict.get` with default `0`). -/
def LINE_W : String → ℝ := fun l =>
  if l = "商宽" then 1.889
  else if l = "原生/疑似家宽" then 0.452
  else if l = "家宽" then 0.295
  else if l = "机房" then -1.534
  else 0

/-- Weight table `RISK_W` (`dict.get` with default `0`). -/
def RISK_W : String → ℝ := fun r =>
  if r = "高风险" then -1.281
  else if r = "低风险" then 0.831
  else if r = "非常安全" then 1.552
  else 0

/-- Embedding of `ProxyPool._sigmoid`, with the two numerically-stable
branches of the source. -/
noncomputable def sigmoid (z : ℝ) : ℝ :=
  if 0 ≤ z then 1 / (1 + Real.exp (-z)) else Real.exp z / (1 + Real.exp z)

/-- Embedding of `ProxyPool._parse_name`: classify a node name into
`(kind, line, risk)` from its tags (the banned-content marker, the speed-node
tag, or the `｜`-delimited segments with the risk truncated at the first
parenthesis; empty segments read as `unknown`). -/
def parse_name (name : String) : String × String × String :=
  if isSubB "防范境外势力渗透".data name.data then ("garbage", "garbage", "garbage")
  else if isSubB "speednode".data (name.data.map lowerChar) then
    ("speednode", "speednode", "unknown")
  else
    let parts := splitOnC '｜' name.data
    if 3 ≤ parts.length then
      let line1 := stripL (parts.getD 1 [])
      let line := if line1 = [] then "unknown" else String.mk line1
      let risk1 := stripL ((splitOnC '(' (stripL (parts.getD 2 []))).getD 0 [])
      let risk := if risk1 = [] then "unknown" else String.mk risk1
      ("tagged", line, risk)
    else ("other", "unknown", "unknown")

/-- Embedding of `ProxyPool._base_score`: the fitted logistic model over the
name tags, scaled to `[0, 100]`. -/
noncomputable def base_score (name : String) : ℝ :=
  let kind := (parse_name name).1
  let z0 := BASE_BIAS + KIND_W kind
  let z :=
    if kind = "tagged" then z0 + LINE_W (parse_name name).2.1 + RISK_W (parse_name name).2.2
    else z0
  100 * sigmoid z


end Defs

section Theorems

variable {α : Type} [LinearOrderedCommRing α]

theorem lookupD_updateKV_self (m : List (String × α)) (k : String) (v : α) :
    lookupD (updateKV m k v) k = v := by
  induction m with
  | nil => simp [lookupD, updateKV, lookupKV]
  | cons hd tl ih =>
    by_cases h : hd.1 = k
    · simp [lookupD, updateKV, lookupKV, h]
    · have h2 : ¬ k = hd.1 := fun hh => h hh.symm
      simpa [lookupD, updateKV, lookupKV, h, h2] using ih

theorem lookupD_updateKV_ne (m : List (String × α)) (k : String) (v : α)
    (k' : String) (h : k' ≠ k) :
    lookupD (updateKV m k v) k' = lookupD m k' := by
  induction m with
  | nil => simp [lookupD, updateKV, lookupKV, h]
  | cons hd tl ih =>
    by_cases hhd : hd.1 = k
    · have h2 : ¬ k' = hd.1 := fun hh => h (hh.trans hhd)
      simp [lookupD, updateKV, lookupKV, hhd, h, h2]
    · by_cases hk' : k' = hd.1
      · simp [lookupD, updateKV, lookupKV, hhd, hk']
      · simpa [lookupD, updateKV, lookupKV, hhd, hk'] using ih

omit [LinearOrderedCommRing α] in
theorem lookupKV_append_single (m : List (String × α)) (k : String) (v : α) (k' : String) :
    lookupKV (m ++ [(k, v)]) k' =
      if (lookupKV m k').isSome then lookupKV m k' else if k' = k then some v else none := by
  induction m with
  | nil => simp [lookupKV]
  | cons hd tl ih =>
    by_cases hk' : k' = hd.1
    · simp [lookupKV, hk']
    · simpa [lookupKV, hk'] using ih

theorem lookupD_setdefaultKV (m : List (String × α)) (k k' : String) :
    lookupD (setdefaultKV m k) k' = lookupD m k' := by
  unfold setdefaultKV
  by_cases hs : (lookupKV m k).isSome
  · simp [hs]
  · rw [if_neg hs]
    simp only [lookupD]
    rw [lookupKV_append_single]
    by_cases hs' : (lookupKV m k').isSome
    · simp [hs']
    · rw [Option.not_isSome_iff_eq_none] at hs'
      simp only [hs', Option.isSome_none, Bool.false_eq_true, if_false]
      split_ifs <;> simp

theorem lookupD_foldl_setdefault (c : List String) (m : List (String × α)) (k : String) :
    lookupD (c.foldl (fun m n => setdefaultKV m n) m) k = lookupD m k := by
  induction c generalizing m with
  | nil => rfl
  | cons hd tl ih => simpa [List.foldl, lookupD_setdefaultKV] using ih (setdefaultKV m hd)

theorem penaltyOf_pos (kind : String) : (0 : α) < penaltyOf kind := by
  unfold penaltyOf
  split_ifs <;> norm_num

theorem lookupD_apply_penalty_self (st : PoolState α) (n kind : String) :
    lookupD (apply_penalty st n kind).dynPenalty n = lookupD st.dynPenalty n + penaltyOf kind := by
  unfold apply_penalty
  exact lookupD_updateKV_self _ _ _

theorem lookupD_apply_penalty_ne (st : PoolState α) (n kind m : String) (h : m ≠ n) :
    lookupD (apply_penalty st n kind).dynPenalty m = lookupD st.dynPenalty m := by
  unfold apply_penalty
  exact lookupD_updateKV_ne _ _ _ _ h

theorem lookupD_apply_penalty_mono (st : PoolState α) (n kind m : String) :
    lookupD st.dynPenalty m ≤ lookupD (apply_penalty st n kind).dynPenalty m := by
  by_cases h : m = n
  · subst h
    rw [lookupD_apply_penalty_self]
    linarith [penaltyOf_pos (α := α) kind]
  · rw [lookupD_apply_penalty_ne st n kind m h]

theorem apply_penalty_ts (st : PoolState α) (n kind : String) :
    (apply_penalty st n kind).lastSwitchTs = st.lastSwitchTs := rfl

omit [LinearOrderedCommRing α] in
theorem lookupKV_map_zero [Zero α] (m : List (String × α)) (n : String) :
    lookupKV (m.map (fun p => ((p.1 : String), (0 : α)))) n = (lookupKV m n).map (fun _ => 0) := by
  induction m with
  | nil => rfl
  | cons hd tl ih =>
    by_cases h : n = hd.1
    · simp [lookupKV, h]
    · simpa [lookupKV, h] using ih

theorem lookupD_map_zero (m : List (String × α)) (n : String) :
    lookupD (m.map (fun p => (p.1, (0 : α)))) n = 0 := by
  unfold lookupD
  rw [lookupKV_map_zero]
  cases lookupKV m n <;> rfl

/-- C5: idle reset of `_maybe_refresh_dynamic`, amended.  When the idle time
reaches the 6-hour threshold and some ledger entry is positive, every entry
becomes exactly `0` and the timer resets to the current time; when no entry is
positive the ledger is untouched but (contrary to the claim, which calls this
case a no-op on the state) the idle timer is still refreshed to the current
time; below the threshold nothing changes at all; the operation is idempotent
at a fixed current time. -/
theorem C5_idle_reset (st : PoolState α) (tNow : α) :
    (REFRESH_IDLE_SECONDS ≤ tNow - st.lastSwitchTs → (∃ p ∈ st.dynPenalty, 0 < p.2) →
      maybe_refresh_dynamic st tNow =
        ⟨st.dynPenalty.map (fun p => (p.1, 0)), tNow⟩ ∧
      ∀ n, lookupD (maybe_refresh_dynamic st tNow).dynPenalty n = 0) ∧
    (REFRESH_IDLE_SECONDS ≤ tNow - st.lastSwitchTs → ¬ (∃ p ∈ st.dynPenalty, 0 < p.2) →
      maybe_refresh_dynamic st tNow = { st with lastSwitchTs := tNow }) ∧
    (tNow - st.lastSwitchTs < REFRESH_IDLE_SECONDS → maybe_refresh_dynamic st tNow = st) ∧
    maybe_refresh_dynamic (maybe_refresh_dynamic st tNow) tNow =
      maybe_refresh_dynamic st tNow := by
  have hpos : (0 : α) < REFRESH_IDLE_SECONDS := by unfold REFRESH_IDLE_SECONDS; norm_num
  refine ⟨fun h1 h2 => ?_, fun h1 h2 => ?_, fun h1 => ?_, ?_⟩
  · have hlt : ¬ tNow - st.lastSwitchTs < REFRESH_IDLE_SECONDS := not_lt.mpr h1
    constructor
    · simp [maybe_refresh_dynamic, hlt, h2]
    · simp only [maybe_refresh_dynamic, hlt, if_false, h2, not_true_eq_false]
      intro n
      exact lookupD_map_zero _ _
  · have hlt : ¬ tNow - st.lastSwitchTs < REFRESH_IDLE_SECONDS := not_lt.mpr h1
    simp [maybe_refresh_dynamic, hlt, h2]
  · simp [maybe_refresh_dynamic, h1]
  · by_cases h1 : tNow - st.lastSwitchTs < REFRESH_IDLE_SECONDS
    · simp [maybe_refresh_dynamic, h1]
    · by_cases h2 : ∃ p ∈ st.dynPenalty, 0 < p.2
      · have step : maybe_refresh_dynamic st tNow =
            ⟨st.dynPenalty.map (fun p => (p.1, 0)), tNow⟩ := by
          simp [maybe_refresh_dynamic, h1, h2]
        rw [step]
        simp [maybe_refresh_dynamic, sub_self, hpos]
      · have step : maybe_refresh_dynamic st tNow = { st with lastSwitchTs := tNow } := by
          simp [maybe_refresh_dynamic, h1, h2]
        rw [step]
        simp [maybe_refresh_dynamic, sub_self, hpos]

/-- C5 witness: a ledger with one positive entry is zeroed and the timer reset
once six idle hours have elapsed. -/
theorem C5_idle_reset_witness :
    maybe_refresh_dynamic (⟨[("node", 5)], 0⟩ : PoolState ℤ) 21600 = ⟨[("node", 0)], 21600⟩ :=
  ((C5_idle_reset (⟨[("node", 5)], 0⟩ : PoolState ℤ) 21600).1 (by decide) (by decide)).1

/-- C5 counterexample: with an all-zero ledger and six idle hours elapsed, the
call is not a no-op on the state - the idle timer is refreshed. -/
theorem C5_counterexample :
    maybe_refresh_dynamic (⟨[], 0⟩ : PoolState ℤ) 21600 ≠ ⟨[], 0⟩ ∧
    maybe_refresh_dynamic (⟨[], 0⟩ : PoolState ℤ) 21600 = ⟨[], 21600⟩ := by
  exact ⟨by decide, by decide⟩

theorem lowerChar_mem_lower : ∀ d ∈ upperLetters, lowerChar d ∈ lowerLetters := by decide

theorem lowerChar_fix_of_not_upper (c : Char) (hc : c ∉ upperLetters) : lowerChar c = c := by
  have h : ∀ d ∈ upperLetters, c ≠ d := fun d hd he => hc (he ▸ hd)
  unfold lowerChar
  rw [if_neg (h 'A' (by decide)), if_neg (h 'B' (by decide)), if_neg (h 'C' (by decide)), if_neg (h 'D' (by decide)), if_neg (h 'E' (by decide)), if_neg (h 'F' (by decide)), if_neg (h 'G' (by decide)), if_neg (h 'H' (by decide)), if_neg (h 'I' (by decide)), if_neg (h 'J' (by decide)), if_neg (h 'K' (by decide)), if_neg (h 'L' (by decide)), if_neg (h 'M' (by decide)), if_neg (h 'N' (by decide)), if_neg (h 'O' (by decide)), if_neg (h 'P' (by decide)), if_neg (h 'Q' (by decide)), if_neg (h 'R' (by decide)), if_neg (h 'S' (by decide)), if_neg (h 'T' (by decide)), if_neg (h 'U' (by decide)), if_neg (h 'V' (by decide)), if_neg (h 'W' (by decide)), if_neg (h 'X' (by decide)), if_neg (h 'Y' (by decide)), if_neg (h 'Z' (by decide))]

theorem lowerChar_cases (c : Char) :
    lowerChar c = c ∨ (c ∈ upperLetters ∧ lowerChar c ∈ lowerLetters) := by
  by_cases hc : c ∈ upperLetters
  · exact Or.inr ⟨hc, lowerChar_mem_lower c hc⟩
  · exact Or.inl (lowerChar_fix_of_not_upper c hc)

theorem lowerChar_fix_of_lower : ∀ c ∈ lowerLetters, lowerChar c = c := by decide

theorem lowerChar_idem (c : Char) : lowerChar (lowerChar c) = lowerChar c := by
  rcases lowerChar_cases c with h | ⟨_, hl⟩
  · rw [h, h]
  · exact lowerChar_fix_of_lower _ hl

theorem map_lowerChar_idem (l : List Char) :
    (l.map lowerChar).map lowerChar = l.map lowerChar := by
  rw [List.map_map]
  exact List.map_congr_left fun c _ => lowerChar_idem c

theorem wsChar_lowerChar (c : Char) : wsChar (lowerChar c) = wsChar c := by
  rcases lowerChar_cases c with h | ⟨hu, hl⟩
  · rw [h]
  · have h1 : ∀ d ∈ upperLetters, wsChar d = false := by decide
    have h2 : ∀ d ∈ lowerLetters, wsChar d = false := by decide
    rw [h1 c hu, h2 _ hl]

theorem stripL_map_lowerChar (l : List Char) :
    stripL (l.map lowerChar) = (stripL l).map lowerChar := by
  unfold stripL
  have hws : wsChar ∘ lowerChar = wsChar := funext wsChar_lowerChar
  rw [List.dropWhile_map, hws, ← List.map_reverse, List.dropWhile_map, hws, ← List.map_reverse]

theorem lowerChar_eq_rigid_iff (c p : Char) (hp : rigidChar p) :
    (lowerChar c = p) ↔ (c = p) := by
  constructor
  · intro h
    rcases lowerChar_cases c with hc | ⟨_, hl⟩
    · rw [← hc, h]
    · exact absurd (h ▸ hl) hp.2
  · intro h
    subst h
    rcases lowerChar_cases c with hc | ⟨hu, _⟩
    · exact hc
    · exact absurd hu hp.1

theorem isPrefixB_map_lower_rigid (pat : List Char) (hp : ∀ p ∈ pat, rigidChar p) :
    ∀ l : List Char, isPrefixB pat (l.map lowerChar) = isPrefixB pat l := by
  induction pat with
  | nil => intro l; rfl
  | cons p ps ih =>
    intro l
    cases l with
    | nil => rfl
    | cons c cs =>
      have hrig := hp p (List.mem_cons_self p ps)
      have hhead : (p == lowerChar c) = (p == c) := by
        rw [Bool.eq_iff_iff]
        simp only [beq_iff_eq]
        constructor
        · intro h
          exact ((lowerChar_eq_rigid_iff c p hrig).mp h.symm).symm
        · intro h
          exact ((lowerChar_eq_rigid_iff c p hrig).mpr h.symm).symm
      simp only [List.map_cons, isPrefixB, hhead]
      rw [ih (fun q hq => hp q (List.mem_cons_of_mem p hq)) cs]

theorem isSubB_map_lower_rigid (pat : List Char) (hp : ∀ p ∈ pat, rigidChar p)
    (l : List Char) : isSubB pat (l.map lowerChar) = isSubB pat l := by
  induction l with
  | nil => rfl
  | cons c cs ih =>
    simp only [List.map_cons, isSubB]
    rw [ih]
    have := isPrefixB_map_lower_rigid pat hp (c :: cs)
    simp only [List.map_cons] at this
    rw [this]

theorem classifyCore_map_lower (l : List Char) :
    classifyCore (l.map lowerChar) = classifyCore l := by
  unfold classifyCore
  rw [map_lowerChar_idem]
  by_cases hl : l = []
  · subst hl
    rfl
  · have hl' : ¬ l.map lowerChar = [] := by
      rw [List.map_eq_nil_iff]
      exact hl
    rw [if_neg hl, if_neg hl']
    rw [isSubB_map_lower_rigid "验证码超时".data (by decide) l]

theorem classify_failure_lower (s : String) :
    classify_failure (String.mk (s.data.map lowerChar)) = classify_failure s := by
  unfold classify_failure
  have hdata : (String.mk (s.data.map lowerChar)).data = s.data.map lowerChar := rfl
  rw [hdata, stripL_map_lowerChar]
  exact classifyCore_map_lower _

/-- C6: `classify_failure` is a pure deterministic function of the input string
(equal inputs give equal results, and ASCII-lowercasing the input does not
change the result), with `classify_failure "" = (other, empty)`,
`classify_failure "verification code timeout" = (mail, otp_timeout)` and
`classify_failure "ERR_PROXY_CONNECTION_FAILED" =
(proxy, err_proxy_connection_failed)`, the marker groups being tested in the
priority order mail, then risk, then proxy, then other (witnessed on inputs
containing markers of two groups). -/
theorem C6_classify_failure :
    (∀ s t : String, s = t → classify_failure s = classify_failure t) ∧
    (∀ s : String, classify_failure (String.mk (s.data.map lowerChar)) = classify_failure s) ∧
    classify_failure "" = ("other", "empty") ∧
    classify_failure "verification code timeout" = ("mail", "otp_timeout") ∧
    classify_failure "ERR_PROXY_CONNECTION_FAILED" = ("proxy", "err_proxy_connection_failed") ∧
    classify_failure "verification code timeout recaptcha challenge" = ("mail", "otp_timeout") ∧
    classify_failure "recaptcha challenge after ssl error" = ("risk", "recaptcha challenge") :=
  ⟨fun _ _ h => h ▸ rfl, classify_failure_lower, by decide, by decide, by decide, by decide,
    by decide⟩

/-- C6 witness: the determinism and case-insensitivity components applied at a
concrete input. -/
theorem C6_classify_failure_witness :
    classify_failure "SSL handshake" = classify_failure "SSL handshake" ∧
    classify_failure "ssl handshake" = classify_failure "SSL handshake" :=
  ⟨C6_classify_failure.1 "SSL handshake" "SSL handshake" rfl,
    C6_classify_failure.2.1 "SSL handshake"⟩

theorem preflightAux_ok_iff (out : String → ProbeOutcome) (urls : List String) :
    (preflightAux out urls).1 = true ↔ ∀ u ∈ urls, (probe_once u (out u)).1 = true := by
  induction urls with
  | nil => simp [preflightAux]
  | cons u rest ih =>
    cases hu : (probe_once u (out u)).1 with
    | false =>
      have hstep : (preflightAux out (u :: rest)).1 = false := by
        simp [preflightAux, hu]
      rw [hstep]
      constructor
      · intro h
        cases h
      · intro hall
        have := hall u (List.mem_cons_self u rest)
        rw [hu] at this
        cases this
    | true =>
      have hstep : (preflightAux out (u :: rest)).1 = (preflightAux out rest).1 := by
        simp [preflightAux, hu]
      rw [hstep, ih]
      constructor
      · intro hall v hv
        rcases List.mem_cons.mp hv with rfl | hv'
        · exact hu
        · exact hall v hv'
      · intro hall v hv
        exact hall v (List.mem_cons_of_mem u hv)

theorem preflightAux_fail (out : String → ProbeOutcome) (urls : List String)
    (h : (preflightAux out urls).1 = false) :
    ∃ k, k < urls.length ∧
      (∀ j, j < k → (probe_once (urls.getD j "") (out (urls.getD j ""))).1 = true) ∧
      (probe_once (urls.getD k "") (out (urls.getD k ""))).1 = false ∧
      (preflightAux out urls).2.2 = urls.take (k + 1) ∧
      (preflightAux out urls).2.1 =
        (urls.take k).map (fun u => (probe_once u (out u)).2)
          ++ [(probe_once (urls.getD k "") (out (urls.getD k ""))).2] := by
  induction urls with
  | nil => simp [preflightAux] at h
  | cons u rest ih =>
    cases hu : (probe_once u (out u)).1 with
    | true =>
      have hstep : preflightAux out (u :: rest) =
          ((preflightAux out rest).1,
            (probe_once u (out u)).2 :: (preflightAux out rest).2.1,
            u :: (preflightAux out rest).2.2) := by
        simp [preflightAux, hu]
      have hr : (preflightAux out rest).1 = false := by
        rw [hstep] at h
        exact h
      obtain ⟨k, hk, hpass, hfail, hprobed, hdet⟩ := ih hr
      refine ⟨k + 1, by simpa using hk, ?_, ?_, ?_, ?_⟩
      · intro j hj
        cases j with
        | zero => simpa [List.getD_cons_zero] using hu
        | succ j' =>
          simp only [List.getD_cons_succ]
          exact hpass j' (Nat.lt_of_succ_lt_succ hj)
      · simp only [List.getD_cons_succ]
        exact hfail
      · rw [hstep]
        show u :: (preflightAux out rest).2.2 = (u :: rest).take (k + 1 + 1)
        rw [List.take_succ_cons, hprobed]
      · rw [hstep]
        show (probe_once u (out u)).2 :: (preflightAux out rest).2.1 =
          ((u :: rest).take (k + 1)).map (fun v => (probe_once v (out v)).2) ++
            [(probe_once ((u :: rest).getD (k + 1) "") (out ((u :: rest).getD (k + 1) ""))).2]
        simp only [List.take_succ_cons, List.map_cons, List.cons_append, List.getD_cons_succ]
        rw [hdet]
    | false =>
      have hstep : preflightAux out (u :: rest) = (false, [(probe_once u (out u)).2], [u]) := by
        simp [preflightAux, hu]
      refine ⟨0, by simp, fun j hj => absurd hj (by omega), ?_, ?_, ?_⟩
      · simpa [List.getD_cons_zero] using hu
      · rw [hstep]
        rfl
      · rw [hstep]
        rfl

/-- C7: the preflight succeeds exactly when every URL of the fixed ordered
list, probed in order, yields a response with status in `[200, 400)` (an
exception or a 407 is a failure); on failure it stops at the first failing
probe: the probed URLs are exactly the list up to and including the failing
one, and the detail list ends with that probe's detail. -/
theorem C7_preflight (out : String → ProbeOutcome) :
    (∀ u c, ((probe_once u (ProbeOutcome.status c)).1 = true ↔ (200 ≤ c ∧ c < 400))) ∧
    (∀ u, probe_once u (ProbeOutcome.status 407) = (false, u ++ ": proxy auth required (407)")) ∧
    (∀ u e msg, (probe_once u (ProbeOutcome.exc e msg)).1 = false) ∧
    ((preflight out).1 = true ↔ ∀ u ∈ PREFLIGHT_URLS, (probe_once u (out u)).1 = true) ∧
    ((preflight out).1 = false → ∃ k, k < PREFLIGHT_URLS.length ∧
      (∀ j, j < k →
        (probe_once (PREFLIGHT_URLS.getD j "") (out (PREFLIGHT_URLS.getD j ""))).1 = true) ∧
      (probe_once (PREFLIGHT_URLS.getD k "") (out (PREFLIGHT_URLS.getD k ""))).1 = false ∧
      (preflight out).2.2 = PREFLIGHT_URLS.take (k + 1) ∧
      (preflight out).2.1 =
        (PREFLIGHT_URLS.take k).map (fun u => (probe_once u (out u)).2)
          ++ [(probe_once (PREFLIGHT_URLS.getD k "") (out (PREFLIGHT_URLS.getD k ""))).2]) := by
  refine ⟨?_, ?_, ?_, preflightAux_ok_iff out PREFLIGHT_URLS, preflightAux_fail out PREFLIGHT_URLS⟩
  · intro u c
    unfold probe_once
    by_cases h407 : c = 407
    · subst h407
      simp
    · by_cases hr : 200 ≤ c ∧ c < 400
      · simp [h407, hr]
      · simp [h407, hr]
  · intro u
    rfl
  · intro u e msg
    rfl

/-- C7 witness: with a proxy that returns 500 on the first URL, the preflight
fails on that URL and does not probe the second. -/
theorem C7_preflight_witness :
    ∃ k, k < PREFLIGHT_URLS.length ∧
      (∀ j, j < k →
        (probe_once (PREFLIGHT_URLS.getD j "")
          ((fun _ => ProbeOutcome.status 500) (PREFLIGHT_URLS.getD j ""))).1 = true) ∧
      (probe_once (PREFLIGHT_URLS.getD k "")
        ((fun _ => ProbeOutcome.status 500) (PREFLIGHT_URLS.getD k ""))).1 = false ∧
      (preflight (fun _ => ProbeOutcome.status 500)).2.2 = PREFLIGHT_URLS.take (k + 1) ∧
      (preflight (fun _ => ProbeOutcome.status 500)).2.1 =
        (PREFLIGHT_URLS.take k).map
          (fun u => (probe_once u ((fun _ => ProbeOutcome.status 500) u)).2)
          ++ [(probe_once (PREFLIGHT_URLS.getD k "")
                ((fun _ => ProbeOutcome.status 500) (PREFLIGHT_URLS.getD k ""))).2] :=
  (C7_preflight (fun _ => ProbeOutcome.status 500)).2.2.2.2 (by rfl)


/-- C4 counterexample: two merged entries with identical configuration apart
from `name` and both named `X` do not yield `["X", "X__dup1"]`: the second
entry hits the fingerprint check and is dropped before any name registration,
so the persisted output names are exactly `["X"]`. -/
theorem C4_counterexample :
    output_names
        [[("name", "X"), ("server", "1.2.3.4")], [("name", "X"), ("server", "1.2.3.4")]]
      = ["X"] ∧
    output_names
        [[("name", "X"), ("server", "1.2.3.4")], [("name", "X"), ("server", "1.2.3.4")]]
      ≠ ["X", "X__dup1"] := by
  exact ⟨by decide, by decide⟩

/-- C4, amended: a fingerprint-duplicate entry is dropped entirely (no name
registration, output `["X"]`), and the `__dup1` numeric suffix is applied when
two entries with different fingerprints share the display name `X`, yielding
`["X", "X__dup1"]`; in general any entry whose fingerprint was already seen
leaves the dedup state unchanged. -/
theorem C4_dedup_names :
    output_names
        [[("name", "X"), ("server", "1.2.3.4")], [("name", "X"), ("server", "1.2.3.4")]]
      = ["X"] ∧
    output_names
        [[("name", "X"), ("server", "1.2.3.4")], [("name", "X"), ("server", "5.6.7.8")]]
      = ["X", "X__dup1"] ∧
    (∀ (st : DedupState) (p : List (String × String)),
      fingerprintOf p ∈ st.seenFp → fetch_dedup_step st p = st) := by
  refine ⟨by decide, by decide, ?_⟩
  intro st p hfp
  unfold fetch_dedup_step
  by_cases hname : String.mk (rstripL (getName p).data) = ""
  · simp [hname]
  · simp [hname, hfp]

/-- C4 witness: the general fingerprint-drop component applied to a concrete
state and entry. -/
theorem C4_dedup_names_witness :
    fetch_dedup_step ⟨[[("server", "1.2.3.4")]], [("X", 0)], [[("name", "X"), ("server", "1.2.3.4")]]⟩
        [("name", "X"), ("server", "1.2.3.4")]
      = ⟨[[("server", "1.2.3.4")]], [("X", 0)], [[("name", "X"), ("server", "1.2.3.4")]]⟩ :=
  C4_dedup_names.2.2
    ⟨[[("server", "1.2.3.4")]], [("X", 0)], [[("name", "X"), ("server", "1.2.3.4")]]⟩
    [("name", "X"), ("server", "1.2.3.4")] (by decide)


theorem char_toNat_inj (a b : Char) (h : a.toNat = b.toNat) : a = b :=
  Char.ext (UInt32.ext h)

theorem strLtB_irrefl (l : List Char) : strLtB l l = false := by
  induction l with
  | nil => rfl
  | cons a as ih => simp [strLtB, ih]

theorem strLtB_asymm : ∀ x y : List Char, strLtB x y = true → strLtB y x = false
  | [], [] => by simp [strLtB]
  | [], _ :: _ => by
    intro
    rfl
  | _ :: _, [] => by simp [strLtB]
  | a :: as, b :: bs => by
    intro h
    rcases Nat.lt_trichotomy a.toNat b.toNat with hab | hab | hab
    · have h1 : ¬ b.toNat < a.toNat := by omega
      simp [strLtB, h1, hab]
    · have h1 : ¬ a.toNat < b.toNat := by omega
      have h2 : ¬ b.toNat < a.toNat := by omega
      simp only [strLtB, if_neg h1, if_neg h2] at h
      simp only [strLtB, if_neg h2, if_neg h1]
      exact strLtB_asymm as bs h
    · have h1 : ¬ a.toNat < b.toNat := by omega
      simp [strLtB, h1, hab] at h

theorem strLtB_trans : ∀ x y z : List Char,
    strLtB x y = true → strLtB y z = true → strLtB x z = true
  | x, [], z => by
    intro h1 h2
    cases z with
    | nil => cases x <;> simp [strLtB] at h1 h2 ⊢
    | cons c cs =>
      cases x with
      | nil => rfl
      | cons a as => simp [strLtB] at h1
  | [], b :: bs, [] => by
    intro h1 h2
    simp [strLtB] at h2
  | [], b :: bs, c :: cs => by
    intro h1 h2
    rfl
  | a :: as, b :: bs, [] => by
    intro h1 h2
    simp [strLtB] at h2
  | a :: as, b :: bs, c :: cs => by
    intro h1 h2
    rcases Nat.lt_trichotomy a.toNat b.toNat with hab | hab | hab
    · rcases Nat.lt_trichotomy b.toNat c.toNat with hbc | hbc | hbc
      · have hac : a.toNat < c.toNat := by omega
        simp [strLtB, hac]
      · have hac : a.toNat < c.toNat := by omega
        simp [strLtB, hac]
      · have h2a : ¬ b.toNat < c.toNat := by omega
        simp [strLtB, h2a, hbc] at h2
    · rcases Nat.lt_trichotomy b.toNat c.toNat with hbc | hbc | hbc
      · have hac : a.toNat < c.toNat := by omega
        simp [strLtB, hac]
      · have h1a : ¬ a.toNat < b.toNat := by omega
        have h1b : ¬ b.toNat < a.toNat := by omega
        have h2a : ¬ b.toNat < c.toNat := by omega
        have h2b : ¬ c.toNat < b.toNat := by omega
        have h3a : ¬ a.toNat < c.toNat := by omega
        have h3b : ¬ c.toNat < a.toNat := by omega
        simp only [strLtB, if_neg h1a, if_neg h1b] at h1
        simp only [strLtB, if_neg h2a, if_neg h2b] at h2
        simp only [strLtB, if_neg h3a, if_neg h3b]
        exact strLtB_trans as bs cs h1 h2
      · have h2a : ¬ b.toNat < c.toNat := by omega
        simp [strLtB, h2a, hbc] at h2
    · have h1a : ¬ a.toNat < b.toNat := by omega
      simp [strLtB, h1a, hab] at h1

theorem strLtB_connex : ∀ x y : List Char,
    strLtB x y = false → strLtB y x = false → x = y
  | [], [] => by
    intro _ _
    rfl
  | [], _ :: _ => by
    intro h _
    simp [strLtB] at h
  | _ :: _, [] => by
    intro _ h
    simp [strLtB] at h
  | a :: as, b :: bs => by
    intro h1 h2
    rcases Nat.lt_trichotomy a.toNat b.toNat with hab | hab | hab
    · simp [strLtB, hab] at h1
    · have h1a : ¬ a.toNat < b.toNat := by omega
      have h1b : ¬ b.toNat < a.toNat := by omega
      simp only [strLtB, if_neg h1a, if_neg h1b] at h1
      simp only [strLtB, if_neg h1b, if_neg h1a] at h2
      rw [char_toNat_inj a b hab, strLtB_connex as bs h1 h2]
    · simp [strLtB, hab] at h2

theorem strLt_connex (a b : String) (h1 : strLt a b = false) (h2 : strLt b a = false) :
    a = b :=
  String.ext (strLtB_connex a.data b.data h1 h2)

theorem keyLt_irrefl (x : ℕ × α × String) : ¬ keyLt x x := by
  unfold keyLt
  simp [strLtB_irrefl, strLt]

theorem keyLt_trans {x y z : ℕ × α × String} (h1 : keyLt x y) (h2 : keyLt y z) :
    keyLt x z := by
  unfold keyLt at h1 h2 ⊢
  rcases h1 with h1 | ⟨h1e, h1s⟩
  · rcases h2 with h2 | ⟨h2e, _⟩
    · exact Or.inl (h1.trans h2)
    · exact Or.inl (h2e ▸ h1)
  · rcases h2 with h2 | ⟨h2e, h2s⟩
    · exact Or.inl (h1e ▸ h2)
    · refine Or.inr ⟨h1e.trans h2e, ?_⟩
      rcases h1s with h1s | ⟨h1se, h1sn⟩
      · rcases h2s with h2s | ⟨h2se, _⟩
        · exact Or.inl (h1s.trans h2s)
        · exact Or.inl (h2se ▸ h1s)
      · rcases h2s with h2s | ⟨h2se, h2sn⟩
        · exact Or.inl (h1se ▸ h2s)
        · exact Or.inr ⟨h1se.trans h2se, strLtB_trans _ _ _ h1sn h2sn⟩

theorem keyLt_resolve (x y : ℕ × α × String) (h : ¬ keyLt x y) :
    keyLt y x ∨ x = y := by
  rcases Nat.lt_trichotomy x.1 y.1 with h1 | h1 | h1
  · exact absurd (Or.inl h1) h
  · rcases lt_trichotomy x.2.1 y.2.1 with h2 | h2 | h2
    · exact absurd (Or.inr ⟨h1, Or.inl h2⟩) h
    · cases hs : strLt x.2.2 y.2.2 with
      | true => exact absurd (Or.inr ⟨h1, Or.inr ⟨h2, hs⟩⟩) h
      | false =>
        cases hs' : strLt y.2.2 x.2.2 with
        | true => exact Or.inl (Or.inr ⟨h1.symm, Or.inr ⟨h2.symm, hs'⟩⟩)
        | false =>
          right
          have hn : x.2.2 = y.2.2 := strLt_connex _ _ hs hs'
          exact Prod.ext h1 (Prod.ext h2 hn)
    · exact Or.inl (Or.inr ⟨h1.symm, Or.inl h2⟩)
  · exact Or.inl (Or.inl h1)

theorem bestOf_step (key : String → ℕ × α × String) (h n : String) (t : List String) :
    bestOf key h (n :: t) = bestOf key (if keyLt (key h) (key n) then n else h) t := rfl

theorem bestOf_mem (key : String → ℕ × α × String) (h : String) (t : List String) :
    bestOf key h t ∈ h :: t := by
  induction t generalizing h with
  | nil => simp [bestOf]
  | cons n t' ih =>
    rw [bestOf_step]
    by_cases hc : keyLt (key h) (key n)
    · rw [if_pos hc]
      exact List.mem_cons_of_mem h (ih n)
    · rw [if_neg hc]
      rcases List.mem_cons.mp (ih h) with he | ht
      · rw [he]
        exact List.mem_cons_self h (n :: t')
      · exact List.mem_cons_of_mem h (List.mem_cons_of_mem n ht)

theorem bestOf_max (key : String → ℕ × α × String) (h : String) (t : List String) :
    ∀ n ∈ h :: t, ¬ keyLt (key (bestOf key h t)) (key n) := by
  induction t generalizing h with
  | nil =>
    intro n hn
    rcases List.mem_cons.mp hn with rfl | hn'
    · simpa [bestOf] using keyLt_irrefl (key n)
    · cases hn'
  | cons m t' ih =>
    intro n hn
    rw [bestOf_step]
    by_cases hc : keyLt (key h) (key m)
    · rw [if_pos hc]
      rcases List.mem_cons.mp hn with he | hn'
      · subst he
        intro habs
        exact ih m m (List.mem_cons_self m t') (keyLt_trans habs hc)
      · exact ih m n hn'
    · rw [if_neg hc]
      rcases List.mem_cons.mp hn with he | hn'
      · rw [he]
        exact ih h h (List.mem_cons_self h t')
      · rcases List.mem_cons.mp hn' with he2 | hn''
        · rw [he2]
          intro habs
          rcases keyLt_resolve (key h) (key m) hc with hmh | he
          · exact ih h h (List.mem_cons_self h t') (keyLt_trans habs hmh)
          · rw [← he] at habs
            exact ih h h (List.mem_cons_self h t') habs
        · exact ih h n (List.mem_cons_of_mem h hn'')

theorem pickPhase_mono (env : LoopEnv α) (base : String → α) (k : ℕ) (g : GroupResp)
    (cands : List String) (st2 : PoolState α) (evs : List (PoolEv α)) (n : String) :
    lookupD st2.dynPenalty n ≤
      lookupD (stepStateOf (pickPhase env base k g cands st2 evs)).dynPenalty n := by
  cases cands with
  | nil => exact le_rfl
  | cons h t =>
    simp only [pickPhase]
    split_ifs <;>
      first
        | exact le_rfl
        | exact lookupD_apply_penalty_mono _ _ _ _

theorem pickPhase_sel (env : LoopEnv α) (base : String → α) (k : ℕ) (g : GroupResp)
    (cands : List String) (st2 : PoolState α) (evs : List (PoolEv α)) (nm : String) (s : α)
    (hin : PoolEv.selected nm s ∈ stepEventsOf (pickPhase env base k g cands st2 evs)) :
    PoolEv.selected nm s ∈ evs ∨ SCORE_THRESHOLD ≤ s := by
  cases cands with
  | nil => exact Or.inl hin
  | cons h t =>
    simp only [pickPhase] at hin
    split_ifs at hin with h1 h2 h3 h4 h5 h6
    · exact Or.inl hin
    · exact Or.inl hin
    · exact Or.inl hin
    · exact Or.inl (by simpa [stepEventsOf] using hin)
    all_goals
      rcases (by simpa [stepEventsOf] using hin :
          PoolEv.selected nm s ∈ evs ∨
            nm = bestOf (keyOf g (score base st2)) h t ∧
              s = score base st2 (bestOf (keyOf g (score base st2)) h t)) with hl | ⟨-, hs⟩
    · exact Or.inl hl
    · subst hs
      exact Or.inr (not_lt.mp h1)
    · exact Or.inl hl
    · subst hs
      exact Or.inr (not_lt.mp h1)
    · exact Or.inl hl
    · subst hs
      exact Or.inr (not_lt.mp h1)

theorem pickPhase_ok_score (env : LoopEnv α) (base : String → α) (k : ℕ) (g : GroupResp)
    (cands : List String) (st2 : PoolState α) (evs : List (PoolEv α))
    (a : Option String) (stR : PoolState α) (evsR : List (PoolEv α))
    (hok : pickPhase env base k g cands st2 evs = Sum.inl (LoopOutcome.ok a, stR, evsR))
    (nm : String) (ha : a = some nm) :
    SCORE_THRESHOLD ≤ score base stR nm := by
  cases cands with
  | nil => simp [pickPhase] at hok
  | cons h t =>
    simp only [pickPhase] at hok
    split_ifs at hok with h1 h2 h3 h4 h5 h6 <;>
      first
        | (simp only [Sum.inl.injEq, Prod.mk.injEq, LoopOutcome.ok.injEq] at hok
           obtain ⟨ho, hst, -⟩ := hok
           rw [ha] at ho
           simp only [Option.some_inj] at ho
           subst ho
           subst hst
           exact not_lt.mp h1)
        | simp at hok

theorem pickPhase_exhausted (env : LoopEnv α) (base : String → α) (k : ℕ) (g : GroupResp)
    (cands : List String) (st2 : PoolState α) (evs : List (PoolEv α))
    (b : String) (s : α) (stR : PoolState α) (evsR : List (PoolEv α))
    (hex : pickPhase env base k g cands st2 evs =
      Sum.inl (LoopOutcome.errExhausted b s, stR, evsR)) :
    s < SCORE_THRESHOLD ∧ s = score base stR b := by
  cases cands with
  | nil => simp [pickPhase] at hex
  | cons h t =>
    simp only [pickPhase] at hex
    split_ifs at hex with h1 h2 h3 h4 h5 h6 <;>
      first
        | (simp only [Sum.inl.injEq, Prod.mk.injEq, LoopOutcome.errExhausted.injEq] at hex
           obtain ⟨⟨hb, hs⟩, hst, -⟩ := hex
           subst hb
           subst hs
           subst hst
           exact ⟨h1, rfl⟩)
        | simp at hex

theorem lookupD_stepSt1 (env : LoopEnv α) (k : ℕ) (st : PoolState α) (n : String) :
    lookupD (stepSt1 env k st).dynPenalty n = lookupD st.dynPenalty n :=
  lookupD_foldl_setdefault _ _ _

theorem score_stepSt1 (env : LoopEnv α) (base : String → α) (k : ℕ) (st : PoolState α)
    (n : String) : score base (stepSt1 env k st) n = score base st n := by
  unfold score
  rw [lookupD_stepSt1]

theorem loopStep_cases (env : LoopEnv α) (base : String → α) (k : ℕ) (st : PoolState α) :
    loopStep env base k st = Sum.inl (LoopOutcome.errNoCandidates, st, []) ∨
    (∃ nw, (env.resp k).now = some nw ∧
      loopStep env base k st = Sum.inl (LoopOutcome.ok (some nw), stepSt1 env k st, []) ∧
      SCORE_THRESHOLD ≤ score base (stepSt1 env k st) nw) ∨
    (∃ nw, (env.resp k).now = some nw ∧
      loopStep env base k st =
        pickPhase env base k (env.resp k) (selectableOf (env.resp k))
          (apply_penalty (stepSt1 env k st) nw "preflight")
          [PoolEv.penalized nw "preflight"]) ∨
    loopStep env base k st =
      pickPhase env base k (env.resp k) (selectableOf (env.resp k)) (stepSt1 env k st) [] := by
  by_cases hc : candidatesOf (env.resp k) = []
  · left
    simp [loopStep, hc]
  · cases hnow : (env.resp k).now with
    | none =>
      right; right; right
      simp [loopStep, hc, hnow]
    | some nw =>
      by_cases hsticky : nw ≠ "" ∧ nw ∈ selectableOf (env.resp k) ∧
          SCORE_THRESHOLD ≤ score base (stepSt1 env k st) nw
      · by_cases hpf : (preflight (env.pf1 k)).1 = true
        · right; left
          exact ⟨nw, rfl, by simp [loopStep, hc, hnow, hsticky, hpf], hsticky.2.2⟩
        · right; right; left
          exact ⟨nw, rfl, by simp [loopStep, hc, hnow, hsticky, hpf]⟩
      · right; right; right
        simp [loopStep, hc, hnow, hsticky]

theorem loopStep_mono (env : LoopEnv α) (base : String → α) (k : ℕ) (st : PoolState α)
    (n : String) :
    lookupD st.dynPenalty n ≤ lookupD (stepStateOf (loopStep env base k st)).dynPenalty n := by
  rcases loopStep_cases env base k st with h | ⟨nw, -, h, -⟩ | ⟨nw, -, h⟩ | h
  · rw [h]
    exact le_rfl
  · rw [h]
    exact le_of_eq (lookupD_stepSt1 env k st n).symm
  · rw [h]
    refine le_trans (le_of_eq (lookupD_stepSt1 env k st n).symm)
      (le_trans (lookupD_apply_penalty_mono (stepSt1 env k st) nw "preflight" n) ?_)
    exact pickPhase_mono env base k (env.resp k) (selectableOf (env.resp k))
      (apply_penalty (stepSt1 env k st) nw "preflight") [PoolEv.penalized nw "preflight"] n
  · rw [h]
    refine le_trans (le_of_eq (lookupD_stepSt1 env k st n).symm) ?_
    exact pickPhase_mono env base k (env.resp k) (selectableOf (env.resp k))
      (stepSt1 env k st) [] n

theorem loopStep_sel (env : LoopEnv α) (base : String → α) (k : ℕ) (st : PoolState α)
    (nm : String) (s : α)
    (hin : PoolEv.selected nm s ∈ stepEventsOf (loopStep env base k st)) :
    SCORE_THRESHOLD ≤ s := by
  rcases loopStep_cases env base k st with h | ⟨nw, -, h, -⟩ | ⟨nw, -, h⟩ | h
  · rw [h] at hin
    cases hin
  · rw [h] at hin
    cases hin
  · rw [h] at hin
    rcases pickPhase_sel _ _ _ _ _ _ _ _ _ hin with hl | hr
    · simp at hl
    · exact hr
  · rw [h] at hin
    rcases pickPhase_sel _ _ _ _ _ _ _ _ _ hin with hl | hr
    · cases hl
    · exact hr

theorem loopStep_ok_score (env : LoopEnv α) (base : String → α) (k : ℕ) (st : PoolState α)
    (a : Option String) (stR : PoolState α) (evsR : List (PoolEv α))
    (h : loopStep env base k st = Sum.inl (LoopOutcome.ok a, stR, evsR))
    (nm : String) (ha : a = some nm) :
    SCORE_THRESHOLD ≤ score base stR nm := by
  rcases loopStep_cases env base k st with h0 | ⟨nw, -, h0, hs⟩ | ⟨nw, -, h0⟩ | h0
  · rw [h0] at h
    simp at h
  · rw [h0] at h
    simp only [Sum.inl.injEq, Prod.mk.injEq, LoopOutcome.ok.injEq] at h
    obtain ⟨ho, hst, -⟩ := h
    rw [ha] at ho
    simp only [Option.some_inj] at ho
    subst ho
    subst hst
    exact hs
  · rw [h0] at h
    exact pickPhase_ok_score _ _ _ _ _ _ _ _ _ _ h nm ha
  · rw [h0] at h
    exact pickPhase_ok_score _ _ _ _ _ _ _ _ _ _ h nm ha

theorem loopStep_exhausted (env : LoopEnv α) (base : String → α) (k : ℕ) (st : PoolState α)
    (b : String) (s : α) (stR : PoolState α) (evsR : List (PoolEv α))
    (h : loopStep env base k st = Sum.inl (LoopOutcome.errExhausted b s, stR, evsR)) :
    s < SCORE_THRESHOLD ∧ s = score base stR b := by
  rcases loopStep_cases env base k st with h0 | ⟨nw, -, h0, -⟩ | ⟨nw, -, h0⟩ | h0
  · rw [h0] at h
    simp at h
  · rw [h0] at h
    simp at h
  · rw [h0] at h
    exact pickPhase_exhausted _ _ _ _ _ _ _ _ _ _ _ h
  · rw [h0] at h
    exact pickPhase_exhausted _ _ _ _ _ _ _ _ _ _ _ h

theorem ensureLoop_mono (env : LoopEnv α) (base : String → α) :
    ∀ (fuel k : ℕ) (st : PoolState α) (n : String),
      lookupD st.dynPenalty n ≤ lookupD (ensureLoop env base fuel k st).2.1.dynPenalty n := by
  intro fuel
  induction fuel with
  | zero =>
    intro k st n
    exact le_rfl
  | succ fuel ih =>
    intro k st n
    cases hstep : loopStep env base k st with
    | inl done =>
      have heq : ensureLoop env base (fuel + 1) k st = done := by
        simp [ensureLoop, hstep]
      rw [heq]
      have hmono := loopStep_mono env base k st n
      rw [hstep] at hmono
      exact hmono
    | inr c =>
      have heq : ensureLoop env base (fuel + 1) k st =
          ((ensureLoop env base fuel (k + 1) c.1).1, (ensureLoop env base fuel (k + 1) c.1).2.1,
            c.2 ++ (ensureLoop env base fuel (k + 1) c.1).2.2) := by
        simp [ensureLoop, hstep]
      rw [heq]
      have hmono := loopStep_mono env base k st n
      rw [hstep] at hmono
      exact le_trans hmono (ih (k + 1) c.1 n)

theorem ensureLoop_threshold (env : LoopEnv α) (base : String → α) (fuel k : ℕ)
    (st : PoolState α) :
    (∀ nm s, PoolEv.selected nm s ∈ (ensureLoop env base fuel k st).2.2 →
      SCORE_THRESHOLD ≤ s) ∧
    (∀ a nm, (ensureLoop env base fuel k st).1 = LoopOutcome.ok a → a = some nm →
      SCORE_THRESHOLD ≤ score base (ensureLoop env base fuel k st).2.1 nm) ∧
    (∀ b s, (ensureLoop env base fuel k st).1 = LoopOutcome.errExhausted b s →
      s < SCORE_THRESHOLD ∧ s = score base (ensureLoop env base fuel k st).2.1 b) := by
  induction fuel generalizing k st with
  | zero =>
    refine ⟨fun nm s hin => absurd hin (List.not_mem_nil _), fun a nm h => ?_, fun b s h => ?_⟩
    · cases h
    · cases h
  | succ fuel ih =>
    cases hstep : loopStep env base k st with
    | inl done =>
      have heq : ensureLoop env base (fuel + 1) k st = done := by
        simp [ensureLoop, hstep]
      obtain ⟨out, stR, evsR⟩ := done
      refine ⟨fun nm s hin => ?_, fun a nm h1 h2 => ?_, fun b s h1 => ?_⟩
      · have := loopStep_sel env base k st nm s
        rw [hstep] at this
        rw [heq] at hin
        exact this hin
      · rw [heq] at h1 ⊢
        subst h1
        exact loopStep_ok_score env base k st a stR evsR hstep nm h2
      · rw [heq] at h1 ⊢
        subst h1
        exact loopStep_exhausted env base k st b s stR evsR hstep
    | inr c =>
      have heq : ensureLoop env base (fuel + 1) k st =
          ((ensureLoop env base fuel (k + 1) c.1).1, (ensureLoop env base fuel (k + 1) c.1).2.1,
            c.2 ++ (ensureLoop env base fuel (k + 1) c.1).2.2) := by
        simp [ensureLoop, hstep]
      refine ⟨fun nm s hin => ?_, fun a nm h1 h2 => ?_, fun b s h1 => ?_⟩
      · rw [heq] at hin
        rcases List.mem_append.mp hin with hl | hr
        · have := loopStep_sel env base k st nm s
          rw [hstep] at this
          exact this hl
        · exact (ih (k + 1) c.1).1 nm s hr
      · rw [heq] at h1 ⊢
        exact (ih (k + 1) c.1).2.1 a nm h1 h2
      · rw [heq] at h1 ⊢
        exact (ih (k + 1) c.1).2.2 b s h1

/-- C2: the selection loop never switches to a node scoring below the
threshold (every external `PUT` switch event carries a best score at or above
`SCORE_THRESHOLD`), a normal return leaves the pool on a node whose score in
the final state is at or above the threshold, the pool-exhaustion error is
raised exactly with a best score below the threshold (which is the best
usable candidate's score in the final state), and when the best-ranked
candidate scores below the threshold the pick phase raises the exhaustion
error right away — same state, no switch event appended. -/
theorem C2_threshold_safety (env : LoopEnv α) (base : String → α) (fuel k : ℕ)
    (st : PoolState α) :
    (∀ nm s, PoolEv.selected nm s ∈ (ensureLoop env base fuel k st).2.2 →
      SCORE_THRESHOLD ≤ s) ∧
    (∀ a nm, (ensureLoop env base fuel k st).1 = LoopOutcome.ok a → a = some nm →
      SCORE_THRESHOLD ≤ score base (ensureLoop env base fuel k st).2.1 nm) ∧
    (∀ b s, (ensureLoop env base fuel k st).1 = LoopOutcome.errExhausted b s →
      s < SCORE_THRESHOLD ∧ s = score base (ensureLoop env base fuel k st).2.1 b) ∧
    (∀ (g : GroupResp) (h : String) (t : List String) (st2 : PoolState α)
      (evs : List (PoolEv α)),
      score base st2 (bestOf (keyOf g (score base st2)) h t) < SCORE_THRESHOLD →
      pickPhase env base k g (h :: t) st2 evs =
        Sum.inl (LoopOutcome.errExhausted (bestOf (keyOf g (score base st2)) h t)
          (score base st2 (bestOf (keyOf g (score base st2)) h t)), st2, evs)) := by
  obtain ⟨c1, c2, c3⟩ := ensureLoop_threshold env base fuel k st
  refine ⟨c1, c2, c3, ?_⟩
  intro g h t st2 evs hlt
  simp only [pickPhase]
  rw [if_pos hlt]

/-- C2 witness: with one alive candidate of score 50 and passing probes, the
loop returns normally and the active node's final score is above the
threshold. -/
theorem C2_threshold_safety_witness :
    SCORE_THRESHOLD ≤ score base50 (ensureLoop envW base50 2 0 stZero).2.1 "n1" :=
  (C2_threshold_safety envW base50 2 0 stZero).2.1 (some "n1") "n1" (by decide) rfl

theorem sticky_run (env : LoopEnv α) (base : String → α) (fuel k : ℕ) (st : PoolState α)
    (nw : String) (hnow : (env.resp k).now = some nw) (hne : nw ≠ "")
    (hmem : nw ∈ usableOf (env.resp k)) (hscore : SCORE_THRESHOLD ≤ score base st nw)
    (hpf : (preflight (env.pf1 k)).1 = true) :
    ensureLoop env base (fuel + 1) k st = (LoopOutcome.ok (some nw), stepSt1 env k st, []) := by
  have husable : usableOf (env.resp k) ≠ [] :=
    fun h0 => absurd (h0 ▸ hmem) (List.not_mem_nil nw)
  have hcands : selectableOf (env.resp k) = usableOf (env.resp k) := by
    unfold selectableOf
    rw [if_neg husable]
  have hc : candidatesOf (env.resp k) ≠ [] := by
    intro h0
    apply husable
    unfold usableOf
    rw [h0]
    rfl
  have hscore1 : SCORE_THRESHOLD ≤ score base (stepSt1 env k st) nw := by
    rw [score_stepSt1]
    exact hscore
  have hmem1 : nw ∈ selectableOf (env.resp k) := by
    rw [hcands]
    exact hmem
  have hstep : loopStep env base k st =
      Sum.inl (LoopOutcome.ok (some nw), stepSt1 env k st, []) := by
    simp only [loopStep]
    rw [if_neg hc]
    simp only [hnow]
    rw [if_pos ⟨hne, hmem1, hscore1⟩, if_pos hpf]
  simp [ensureLoop, hstep]

/-- C9: sticky stability of the selection loop.  If on entry to an iteration a
current selection exists (nonempty), is among the usable candidates, its score
is at or above the threshold and its preflight passes, the call returns
normally on that node without issuing the external switch call and without
applying any penalty: the event list is empty, every penalty-ledger read and
the idle timer are unchanged, and an immediately repeated call returns the
same way (idempotent no-op). -/
theorem C9_sticky_stability (env : LoopEnv α) (base : String → α) (fuel k : ℕ)
    (st : PoolState α) (nw : String)
    (hnow : (env.resp k).now = some nw) (hne : nw ≠ "")
    (hmem : nw ∈ usableOf (env.resp k))
    (hscore : SCORE_THRESHOLD ≤ score base st nw)
    (hpf : (preflight (env.pf1 k)).1 = true) :
    (ensureLoop env base (fuel + 1) k st).1 = LoopOutcome.ok (some nw) ∧
    (ensureLoop env base (fuel + 1) k st).2.2 = [] ∧
    (∀ n, lookupD (ensureLoop env base (fuel + 1) k st).2.1.dynPenalty n =
      lookupD st.dynPenalty n) ∧
    (ensureLoop env base (fuel + 1) k st).2.1.lastSwitchTs = st.lastSwitchTs ∧
    (ensureLoop env base (fuel + 1) k ((ensureLoop env base (fuel + 1) k st).2.1)).1 =
      LoopOutcome.ok (some nw) := by
  have h1 := sticky_run env base fuel k st nw hnow hne hmem hscore hpf
  have hscore2 : SCORE_THRESHOLD ≤ score base (stepSt1 env k st) nw := by
    rw [score_stepSt1]
    exact hscore
  have h2 := sticky_run env base fuel k (stepSt1 env k st) nw hnow hne hmem hscore2 hpf
  rw [h1]
  exact ⟨rfl, rfl, fun n => lookupD_stepSt1 env k st n, rfl, by rw [h2]⟩

/-- C9 witness: a concrete sticky run (current node `n1`, score 50, probes
pass) returns without switching. -/
theorem C9_sticky_stability_witness :
    (ensureLoop envW9 base50 2 0 stZero).1 = LoopOutcome.ok (some "n1") :=
  (C9_sticky_stability envW9 base50 1 0 stZero "n1" rfl (by decide) (by decide) (by decide)
    rfl).1

/-- C3 counterexample: two usable candidates `a` and `b` with equal liveness
rank and equal score; the loop selects and switches to `b`, the
lexicographically larger name, not the smaller `a` the claim requires. -/
theorem C3_counterexample :
    (ensureLoop envC3 base50 2 0 stZero).1 = LoopOutcome.ok (some "b") ∧
    (ensureLoop envC3 base50 2 0 stZero).2.2 = [PoolEv.selected "b" 50] ∧
    "b" ≠ "a" :=
  ⟨by decide, by decide, by decide⟩

/-- C3, amended: the best pick ranks usable candidates by the triple
`(liveness_rank, score, name)` — the chosen candidate is a member of the list
and maximal for the strict lexicographic key order — and for two usable
candidates with equal liveness rank and equal score the lexicographically
larger name is selected (Python `max` on tuples takes the largest name as the
final tie-break), not the smaller one. -/
theorem C3_best_pick (g : GroupResp) (sc : String → α) (h : String) (t : List String) :
    (bestOf (keyOf g sc) h t ∈ h :: t) ∧
    (∀ n ∈ h :: t, ¬ keyLt (keyOf g sc (bestOf (keyOf g sc) h t)) (keyOf g sc n)) ∧
    (∀ a b : String, alive_rank (g.alive a) = alive_rank (g.alive b) → sc a = sc b →
      strLt a b = true →
      bestOf (keyOf g sc) a [b] = b ∧ bestOf (keyOf g sc) b [a] = b) := by
  refine ⟨bestOf_mem _ _ _, bestOf_max _ _ _, ?_⟩
  intro a b hr hs hlt
  have hab : keyLt (keyOf g sc a) (keyOf g sc b) := Or.inr ⟨hr, Or.inr ⟨hs, hlt⟩⟩
  have hba : ¬ keyLt (keyOf g sc b) (keyOf g sc a) := by
    intro hcon
    unfold keyLt keyOf at hcon
    simp only at hcon
    rcases hcon with hcon | ⟨-, hcon | ⟨-, hcon⟩⟩
    · rw [hr] at hcon
      exact lt_irrefl _ hcon
    · rw [hs] at hcon
      exact lt_irrefl _ hcon
    · have h2 := strLtB_asymm a.data b.data hlt
      unfold strLt at hcon
      rw [h2] at hcon
      cases hcon
  constructor
  · show (if keyLt (keyOf g sc a) (keyOf g sc b) then b else a) = b
    rw [if_pos hab]
  · show (if keyLt (keyOf g sc b) (keyOf g sc a) then a else b) = b
    rw [if_neg hba]

/-- C3 witness: the tie-break component applied to the concrete two-candidate
group (equal rank, equal score): `b` wins from either list order. -/
theorem C3_best_pick_witness :
    bestOf (keyOf respC3 base50) "a" ["b"] = "b" ∧
    bestOf (keyOf respC3 base50) "b" ["a"] = "b" :=
  (C3_best_pick respC3 base50 "a" ["b"]).2.2 "a" "b" rfl rfl (by decide)

/-- C10: `on_failure` with no current selection (`now` missing or empty)
applies no penalty — the state handed to the re-selection run is exactly the
incoming state — and simply runs `ensure_proxy_reachable`; with a selection
`nw` it hands over `apply_penalty st nw kind`; and an unrecognized failure
kind falls back to the risk penalty of 60. -/
theorem C10_on_failure_no_selection (g0 : GroupResp) (env : LoopEnv α) (base : String → α)
    (tNow : α) (st : PoolState α) (kind detail : String) (fuel : ℕ) :
    (g0.now = none →
      on_failure g0 env base tNow st kind detail fuel =
        ensure_proxy_reachable env base tNow st fuel) ∧
    (g0.now = some "" →
      on_failure g0 env base tNow st kind detail fuel =
        ensure_proxy_reachable env base tNow st fuel) ∧
    (∀ nw, g0.now = some nw → nw ≠ "" →
      on_failure g0 env base tNow st kind detail fuel =
        ensure_proxy_reachable env base tNow (apply_penalty st nw kind) fuel) ∧
    (∀ (st' : PoolState α) (nw kind' : String), kind' ≠ "preflight" → kind' ≠ "risk" →
      kind' ≠ "proxy" → kind' ≠ "mail" →
      lookupD (apply_penalty st' nw kind').dynPenalty nw =
        lookupD st'.dynPenalty nw + 60) := by
  refine ⟨fun h => by simp [on_failure, h], fun h => by simp [on_failure, h],
    fun nw h hne => by simp [on_failure, h, hne], ?_⟩
  intro st' nw kind' h1 h2 h3 h4
  rw [lookupD_apply_penalty_self]
  unfold penaltyOf
  rw [if_neg h1, if_neg h2, if_neg h3, if_neg h4]

/-- C10 witness: with current selection `n1` and an unrecognized kind, the
penalty handed over is applied to `n1` and equals the risk fallback of 60. -/
theorem C10_on_failure_no_selection_witness :
    on_failure respW9 envW base50 0 stZero "other2" "d" 1 =
      ensure_proxy_reachable envW base50 0 (apply_penalty stZero "n1" "other2") 1 ∧
    lookupD (apply_penalty stZero "n1" "other2").dynPenalty "n1" =
      lookupD stZero.dynPenalty "n1" + 60 :=
  ⟨(C10_on_failure_no_selection respW9 envW base50 0 stZero "other2" "d" 1).2.2.1 "n1" rfl
      (by decide),
    (C10_on_failure_no_selection respW9 envW base50 0 stZero "other2" "d" 1).2.2.2 stZero "n1"
      "other2" (by decide) (by decide) (by decide) (by decide)⟩

/-- C1: for every node, `score = base − penalty` with missing ledger entries
reading as zero; `_apply_penalty` adds exactly its positive fixed magnitude to
the target node and leaves every other entry unchanged; and the ledger is
non-decreasing entrywise across any sequence of apply-penalty calls, across
any run of the selection loop, and across `on_failure` when no idle reset
occurs (idle time below the 6-hour threshold). -/
theorem C1_score_penalty_monotone (base : String → α) :
    (∀ (st : PoolState α) (n : String), score base st n = base n - lookupD st.dynPenalty n) ∧
    (∀ (st : PoolState α) (n : String), lookupKV st.dynPenalty n = none →
      score base st n = base n) ∧
    (∀ (st : PoolState α) (n kind : String),
      lookupD (apply_penalty st n kind).dynPenalty n =
        lookupD st.dynPenalty n + penaltyOf kind ∧ (0 : α) < penaltyOf kind) ∧
    (∀ (st : PoolState α) (n kind m : String), m ≠ n →
      lookupD (apply_penalty st n kind).dynPenalty m = lookupD st.dynPenalty m) ∧
    (∀ (st : PoolState α) (calls : List (String × String)) (n : String),
      lookupD st.dynPenalty n ≤
        lookupD (calls.foldl (fun s c => apply_penalty s c.1 c.2) st).dynPenalty n) ∧
    (∀ (env : LoopEnv α) (fuel k : ℕ) (st : PoolState α) (n : String),
      lookupD st.dynPenalty n ≤ lookupD (ensureLoop env base fuel k st).2.1.dynPenalty n) ∧
    (∀ (g0 : GroupResp) (env : LoopEnv α) (tNow : α) (st : PoolState α)
      (kind detail : String) (fuel : ℕ) (n : String),
      tNow - st.lastSwitchTs < REFRESH_IDLE_SECONDS →
      lookupD st.dynPenalty n ≤
        lookupD (on_failure g0 env base tNow st kind detail fuel).2.1.dynPenalty n) := by
  refine ⟨fun st n => rfl, ?_, fun st n kind => ⟨lookupD_apply_penalty_self st n kind,
    penaltyOf_pos kind⟩, fun st n kind m hm => lookupD_apply_penalty_ne st n kind m hm,
    ?_, fun env fuel k st n => ensureLoop_mono env base fuel k st n, ?_⟩
  · intro st n h
    unfold score lookupD
    rw [h]
    simp
  · intro st calls
    induction calls generalizing st with
    | nil => exact fun n => le_rfl
    | cons c rest ih =>
      intro n
      exact le_trans (lookupD_apply_penalty_mono st c.1 c.2 n) (ih (apply_penalty st c.1 c.2) n)
  · intro g0 env tNow st kind detail fuel n hidle
    cases hg : g0.now with
    | none =>
      simp only [on_failure, hg, ensure_proxy_reachable]
      have hnr : maybe_refresh_dynamic st tNow = st := by
        simp [maybe_refresh_dynamic, hidle]
      rw [hnr]
      exact ensureLoop_mono env base fuel 0 st n
    | some nw =>
      by_cases hnw : nw = ""
      · subst hnw
        simp only [on_failure, hg, ensure_proxy_reachable, if_true]
        have hnr : maybe_refresh_dynamic st tNow = st := by
          simp [maybe_refresh_dynamic, hidle]
        rw [hnr]
        exact ensureLoop_mono env base fuel 0 st n
      · simp only [on_failure, hg, ensure_proxy_reachable]
        rw [if_neg hnw]
        have hnr : maybe_refresh_dynamic (apply_penalty st nw kind) tNow =
            apply_penalty st nw kind := by
          simp [maybe_refresh_dynamic, apply_penalty_ts, hidle]
        rw [hnr]
        exact le_trans (lookupD_apply_penalty_mono st nw kind n)
          (ensureLoop_mono env base fuel 0 (apply_penalty st nw kind) n)

/-- C1 witness: the `on_failure` monotonicity component evaluated on a
concrete call with an idle time below the reset threshold. -/
theorem C1_score_penalty_monotone_witness :
    lookupD stZero.dynPenalty "n1" ≤
      lookupD (on_failure respW9 envW base50 0 stZero "weird" "d" 1).2.1.dynPenalty "n1" :=
  (C1_score_penalty_monotone base50).2.2.2.2.2.2 respW9 envW 0 stZero "weird" "d" 1 "n1"
    (by decide)

theorem exp_0111_bounds : (1.116856 : ℝ) ≤ Real.exp 0.111 ∧ Real.exp 0.111 ≤ 1.117465 := by
  have hx : |(0.111 : ℝ)| ≤ 1 := by
    rw [abs_of_nonneg (by norm_num : (0:ℝ) ≤ 0.111)]
    norm_num
  have hb := @Real.exp_bound 0.111 hx 3 (by norm_num)
  rw [abs_of_nonneg (by norm_num : (0:ℝ) ≤ 0.111)] at hb
  obtain ⟨hlo, hhi⟩ := abs_le.mp hb
  norm_num [Finset.sum_range_succ, Nat.factorial] at hlo hhi
  constructor <;> linarith

theorem exp_0424_bounds : (1.524908 : ℝ) ≤ Real.exp 0.424 ∧ Real.exp 0.424 ≤ 1.528276 := by
  have hx : |(0.424 : ℝ)| ≤ 1 := by
    rw [abs_of_nonneg (by norm_num : (0:ℝ) ≤ 0.424)]
    norm_num
  have hb := @Real.exp_bound 0.424 hx 4 (by norm_num)
  rw [abs_of_nonneg (by norm_num : (0:ℝ) ≤ 0.424)] at hb
  obtain ⟨hlo, hhi⟩ := abs_le.mp hb
  norm_num [Finset.sum_range_succ, Nat.factorial] at hlo hhi
  constructor <;> linarith

theorem exp_sq_bounds :
    (7.38905 : ℝ) < Real.exp 1 * Real.exp 1 ∧ Real.exp 1 * Real.exp 1 < 7.38906 := by
  have he1 := Real.exp_one_gt_d9
  have he2 := Real.exp_one_lt_d9
  have hpos : (0:ℝ) < Real.exp 1 := Real.exp_pos 1
  constructor <;> nlinarith

theorem exp_2111_bounds : (8.2 : ℝ) < Real.exp 2.111 ∧ Real.exp 2.111 < 8.3 := by
  have hsplit : Real.exp 2.111 = Real.exp 1 * Real.exp 1 * Real.exp 0.111 := by
    rw [← Real.exp_add, ← Real.exp_add]
    norm_num
  rw [hsplit]
  have h0 := exp_0111_bounds
  have hee := exp_sq_bounds
  have hpos : (0:ℝ) < Real.exp 0.111 := Real.exp_pos _
  have hpos2 : (0:ℝ) < Real.exp 1 * Real.exp 1 := mul_pos (Real.exp_pos 1) (Real.exp_pos 1)
  constructor <;> nlinarith [h0.1, h0.2, hee.1, hee.2]

theorem exp_3424_bounds : (30.4 : ℝ) < Real.exp 3.424 ∧ Real.exp 3.424 < 31 := by
  have hsplit : Real.exp 3.424 = Real.exp 1 * Real.exp 1 * Real.exp 1 * Real.exp 0.424 := by
    rw [← Real.exp_add, ← Real.exp_add, ← Real.exp_add]
    norm_num
  rw [hsplit]
  have h0 := exp_0424_bounds
  have hee := exp_sq_bounds
  have he1 := Real.exp_one_gt_d9
  have he2 := Real.exp_one_lt_d9
  have hpos1 : (0:ℝ) < Real.exp 1 := Real.exp_pos 1
  have hpos4 : (0:ℝ) < Real.exp 0.424 := Real.exp_pos _
  have h3lo : (20.085 : ℝ) < Real.exp 1 * Real.exp 1 * Real.exp 1 := by
    nlinarith [hee.1, he1]
  have h3hi : Real.exp 1 * Real.exp 1 * Real.exp 1 < 20.0856 := by
    nlinarith [hee.2, he2]
  have hpos3 : (0:ℝ) < Real.exp 1 * Real.exp 1 * Real.exp 1 := by positivity
  constructor <;> nlinarith [h0.1, h0.2]

theorem base_score_tagged_A (nA : String)
    (hA : parse_name nA = ("tagged", "商宽", "低风险")) :
    base_score nA = 100 * sigmoid 2.111 := by
  have hK : KIND_W "tagged" = 1.102 := by
    unfold KIND_W
    rw [if_neg (by decide), if_pos rfl]
  have hL : LINE_W "商宽" = 1.889 := by
    unfold LINE_W
    rw [if_pos rfl]
  have hR : RISK_W "低风险" = 0.831 := by
    unfold RISK_W
    rw [if_neg (by decide), if_pos rfl]
  unfold base_score
  rw [hA]
  simp only [if_pos rfl]
  rw [hK, hL, hR]
  norm_num [BASE_BIAS]

theorem base_score_tagged_B (nB : String)
    (hB : parse_name nB = ("tagged", "机房", "高风险")) :
    base_score nB = 100 * sigmoid (-3.424) := by
  have hK : KIND_W "tagged" = 1.102 := by
    unfold KIND_W
    rw [if_neg (by decide), if_pos rfl]
  have hL : LINE_W "机房" = -1.534 := by
    unfold LINE_W
    rw [if_neg (by decide), if_neg (by decide), if_neg (by decide), if_pos rfl]
  have hR : RISK_W "高风险" = -1.281 := by
    unfold RISK_W
    rw [if_pos rfl]
  unfold base_score
  rw [hB]
  simp only [if_pos rfl]
  rw [hK, hL, hR]
  norm_num [BASE_BIAS]

theorem sigmoid_2111_bounds :
    (0.891 : ℝ) < sigmoid 2.111 ∧ sigmoid 2.111 < 0.893 := by
  have hsig : sigmoid 2.111 = 1 / (1 + Real.exp (-2.111)) := by
    unfold sigmoid
    rw [if_pos (by norm_num)]
  have hneg : Real.exp (-2.111) = (Real.exp 2.111)⁻¹ := by
    rw [← Real.exp_neg]
  rw [hsig, hneg]
  have hX := exp_2111_bounds
  have hXpos : (0:ℝ) < Real.exp 2.111 := Real.exp_pos _
  have hinv_lo : (Real.exp 2.111)⁻¹ < (8.2 : ℝ)⁻¹ := by
    apply inv_lt_inv_of_lt (by norm_num) hX.1
  have hinv_hi : (8.3 : ℝ)⁻¹ < (Real.exp 2.111)⁻¹ := by
    apply inv_lt_inv_of_lt hXpos hX.2
  have hden : (0:ℝ) < 1 + (Real.exp 2.111)⁻¹ := by positivity
  constructor
  · rw [lt_div_iff hden]
    nlinarith
  · rw [div_lt_iff hden]
    nlinarith

theorem sigmoid_neg3424_bounds :
    (0.030 : ℝ) < sigmoid (-3.424) ∧ sigmoid (-3.424) < 0.032 := by
  have hsig : sigmoid (-3.424) =
      Real.exp (-3.424) / (1 + Real.exp (-3.424)) := by
    unfold sigmoid
    rw [if_neg (by norm_num)]
  have hneg : Real.exp (-3.424) = (Real.exp 3.424)⁻¹ := by
    rw [← Real.exp_neg]
  rw [hsig, hneg]
  have hY := exp_3424_bounds
  have hYpos : (0:ℝ) < Real.exp 3.424 := Real.exp_pos _
  have hinv_lo : (Real.exp 3.424)⁻¹ < (30.4 : ℝ)⁻¹ := by
    apply inv_lt_inv_of_lt (by norm_num) hY.1
  have hinv_hi : (31 : ℝ)⁻¹ < (Real.exp 3.424)⁻¹ := by
    apply inv_lt_inv_of_lt hYpos hY.2
  have hden : (0:ℝ) < 1 + (Real.exp 3.424)⁻¹ := by positivity
  constructor
  · rw [lt_div_iff hden]
    nlinarith
  · rw [div_lt_iff hden]
    nlinarith

/-- C8: the static base score is determined by the parsed name tags: every
node parsing as `(tagged, 商宽, 低风险)` scores within `0.1` of `89.2`
(`100·σ(−1.711+1.102+1.889+0.831) = 100·σ(2.111)`), every node parsing as
`(tagged, 机房, 高风险)` scores within `0.1` of `3.1`
(`100·σ(−1.711+1.102−1.534−1.281) = 100·σ(−3.424)`; the exact value is near
`3.16`, still within the claimed tolerance), so with zero penalty the first
always outranks the second and the second falls below the threshold `10`. -/
theorem C8_base_score_values (nA nB : String)
    (hA : parse_name nA = ("tagged", "商宽", "低风险"))
    (hB : parse_name nB = ("tagged", "机房", "高风险")) :
    |base_score nA - 89.2| < 0.1 ∧ |base_score nB - 3.1| < 0.1 ∧
    base_score nB < base_score nA ∧ base_score nB < SCORE_THRESHOLD := by
  have hA2 := base_score_tagged_A nA hA
  have hB2 := base_score_tagged_B nB hB
  have hsa := sigmoid_2111_bounds
  have hsb := sigmoid_neg3424_bounds
  rw [hA2, hB2]
  refine ⟨?_, ?_, ?_, ?_⟩
  · rw [abs_sub_lt_iff]
    constructor <;> nlinarith [hsa.1, hsa.2]
  · rw [abs_sub_lt_iff]
    constructor <;> nlinarith [hsb.1, hsb.2]
  · nlinarith [hsa.1, hsb.2]
  · have : SCORE_THRESHOLD = (10 : ℝ) := rfl
    rw [this]
    nlinarith [hsb.2]

/-- C8 witness: two concrete tagged node names carrying the claimed line and
risk tags. -/
theorem C8_base_score_values_witness :
    |base_score "X｜商宽｜低风险" - 89.2| < 0.1 ∧
    |base_score "Y｜机房｜高风险" - 3.1| < 0.1 ∧
    base_score "Y｜机房｜高风险" < base_score "X｜商宽｜低风险" ∧
    base_score "Y｜机房｜高风险" < SCORE_THRESHOLD :=
  C8_base_score_values "X｜商宽｜低风险" "Y｜机房｜高风险" (by decide) (by decide)

end Theorems
